import Mathlib

/-!
Verification of the Reservation & Settlement Engine of the storefront bot.

The embedding below translates the engine's Python source into Lean:

* `products` rows (src/utils.py schema; created in src/admin.py with
  `available = 1, reserved = 0`) become `Lot`.  The catalog attributes
  (city, district, product_type, size) are opaque to the engine, so they
  are embedded as natural-number codes; SQL `INTEGER` columns become `Int`
  and currency amounts (Python floats that only ever carry 2-decimal
  currency values plus exact arithmetic on them) become `Rat`.
* a basket entry `"product_id:timestamp"` of the delimited basket string
  column becomes `Hold`; the per-user basket string becomes `List Hold`.
  (Sequentially the `context.user_data` mirror of the basket equals the
  DB string restricted to still-existing lots, so one list suffices; the
  snapshot restriction is applied where the source applies it.)
* `users`, `purchases` and `discount_codes` rows become `User`,
  `Purchase` and `DiscountCode`.

SQL statements are translated row-by-row: `UPDATE ... WHERE id = ?`
is a map over the row list touching matching rows (`id` is the primary
key, so row ids are unique — recorded as `NodupIds` in the invariant),
`SELECT ... WHERE id = ?` is `List.find?`, `DELETE` is `List.filter`,
and a transaction that rolls back returns the pre-transaction state.
-/

namespace Storefront

/-- One `products` row: a single sellable stock unit. -/
structure Lot where
  id : Nat
  city : Nat
  district : Nat
  ptype : Nat
  size : Nat
  price : Rat
  available : Int
  reserved : Int
  deriving Repr, DecidableEq

/-- One basket entry `"product_id:timestamp"` of the delimited basket column. -/
structure Hold where
  productId : Nat
  timestamp : Rat
  deriving Repr, DecidableEq

/-- One `users` row (the fields the engine touches). -/
structure User where
  userId : Nat
  balance : Rat
  basket : List Hold
  totalPurchases : Nat
  deriving Repr, DecidableEq

/-- One `purchases` row (the fields the claims mention). -/
structure Purchase where
  userId : Nat
  productId : Nat
  pricePaid : Rat
  purchaseDate : Rat
  deriving Repr, DecidableEq

/-- `discount_type` column: `'percentage'` or `'fixed'`. -/
inductive DiscountType where
  | percentage
  | fixed
  deriving Repr, DecidableEq

/-- One `discount_codes` row.  `expiryDate` is the parsed
`expiry_date` timestamp (`none` when the column is NULL). -/
structure DiscountCode where
  code : String
  dtype : DiscountType
  value : Rat
  isActive : Bool
  maxUses : Option Nat
  usesCount : Nat
  expiryDate : Option Rat
  deriving Repr, DecidableEq

/-- The whole relational store. -/
structure State where
  products : List Lot
  users : List User
  purchases : List Purchase
  discountCodes : List DiscountCode
  deriving Repr, DecidableEq

/-- `BASKET_TIMEOUT`: hold TTL in seconds (src/utils.py, default 15 minutes). -/
def BASKET_TIMEOUT : Rat := 900

/-- `SELECT ... FROM products WHERE id = ?`. -/
def findLot (ps : List Lot) (pid : Nat) : Option Lot :=
  ps.find? (fun l => l.id = pid)

/-- `UPDATE products SET ... WHERE id = ?`. -/
def updateLot (ps : List Lot) (pid : Nat) (f : Lot → Lot) : List Lot :=
  ps.map (fun l => if l.id = pid then f l else l)

/-- `SELECT ... FROM users WHERE user_id = ?`. -/
def findUser (us : List User) (uid : Nat) : Option User :=
  us.find? (fun u => u.userId = uid)

/-- `UPDATE users SET ... WHERE user_id = ?`. -/
def updateUser (us : List User) (uid : Nat) (f : User → User) : List User :=
  us.map (fun u => if u.userId = uid then f u else u)

/-- The basket list of one user (empty when the row is absent). -/
def basketOf (s : State) (uid : Nat) : List Hold :=
  (findUser s.users uid).elim [] (fun u => u.basket)

/-- How many holds of `basket` reference lot `pid`
(one entry of the `Counter` of product ids). -/
def countHolds (basket : List Hold) (pid : Nat) : Nat :=
  (basket.filter (fun h => h.productId = pid)).length

/-- The batched release
`executemany("UPDATE products SET reserved = MAX(0, reserved - ?) WHERE id = ?", counts)`
running once per product id of `released` with its multiplicity
(ids not referenced get count 0, leaving the row unchanged). -/
def releaseAll (ps : List Lot) (released : List Hold) : List Lot :=
  ps.map (fun l => { l with reserved := max 0 (l.reserved - countHolds released l.id) })

/-- `current_time - timestamp <= BASKET_TIMEOUT`: the keep test of both sweeps
(src/utils.py lines 1070 and 1126). -/
def holdAlive (now : Rat) (h : Hold) : Bool :=
  now - h.timestamp ≤ BASKET_TIMEOUT

/-- `clear_expired_basket` (src/utils.py 1029-1098): the lazy sweep for one
user.  Partitions the basket into kept/expired holds, stores the kept list
back and releases one reservation per expired hold, all in one transaction. -/
def clearExpiredBasket (s : State) (uid : Nat) (now : Rat) : State :=
  match findUser s.users uid with
  | none => s
  | some u =>
    if u.basket = [] then s
    else
      let kept := u.basket.filter (holdAlive now)
      let expired := u.basket.filter (fun h => ¬ holdAlive now h)
      { s with
        products := releaseAll s.products expired
        users := updateUser s.users uid (fun v => { v with basket := kept }) }

/-- `clear_all_expired_baskets` (src/utils.py 1100-1151): the periodic global
sweep.  Scans every user's basket, keeps the unexpired holds and releases
the expired ones in one batched transaction. -/
def clearAllExpiredBaskets (s : State) (now : Rat) : State :=
  let allExpired := s.users.flatMap (fun u => u.basket.filter (fun h => ¬ holdAlive now h))
  { s with
    products := releaseAll s.products allExpired
    users := s.users.map (fun u => { u with basket := u.basket.filter (holdAlive now) }) }

/-- Result of `handle_add_to_basket`. -/
inductive AddResult where
  | reserved (pid : Nat)
  | outOfStock
  deriving Repr, DecidableEq

/-- The WHERE clause of the free-lot query of `handle_add_to_basket`
(src/user.py 550-554): attribute match plus `available > reserved`. -/
def freeLotMatch (c d t sz : Nat) (pr : Rat) (l : Lot) : Bool :=
  l.city = c && l.district = d && l.ptype = t && l.size = sz && l.price = pr
    && l.reserved < l.available

/-- `ORDER BY id LIMIT 1`: the row with the least id, `none` on no row. -/
def selectMinId : List Lot → Option Lot
  | [] => none
  | l :: rest =>
    match selectMinId rest with
    | none => some l
    | some m => if l.id ≤ m.id then some l else some m

/-- `handle_add_to_basket` (src/user.py 544-576), the DB transaction:
select one matching free lot (least id); if none, roll back and report
out of stock with no state change; otherwise increment its `reserved`
and append a hold carrying the current timestamp to the user's basket
string, committing both in the same transaction. -/
def addToBasket (s : State) (uid : Nat) (c d t sz : Nat) (pr : Rat) (now : Rat) :
    State × AddResult :=
  match selectMinId (s.products.filter (freeLotMatch c d t sz pr)) with
  | none => (s, .outOfStock)
  | some l =>
    ({ s with
        products := updateLot s.products l.id (fun p => { p with reserved := p.reserved + 1 })
        users := updateUser s.users uid
          (fun u => { u with basket := u.basket ++ [⟨l.id, now⟩] }) },
      .reserved l.id)

/-- Drop the first hold referencing `pid` (`none` when no hold matches):
the context search plus `items_list.remove(item_str)` of
`handle_remove_from_basket`. -/
def removeFirstHold : List Hold → Nat → Option (List Hold)
  | [], _ => none
  | h :: t, pid =>
    if h.productId = pid then some t
    else (removeFirstHold t pid).map (fun t2 => h :: t2)

/-- `handle_remove_from_basket` (src/user.py 1102-1215), the DB core:
if the user holds the lot, decrement that lot's `reserved` by
`MAX(0, reserved - 1)` (a no-op when the row is gone) and drop the first
matching hold; if the hold is absent this is a no-op on inventory. -/
def removeFromBasket (s : State) (uid : Nat) (pid : Nat) : State :=
  match findUser s.users uid with
  | none => s
  | some u =>
    match removeFirstHold u.basket pid with
    | none => s
    | some basket2 =>
      { s with
        products := updateLot s.products pid
          (fun l => { l with reserved := max 0 (l.reserved - 1) })
        users := updateUser s.users uid (fun v => { v with basket := basket2 }) }

/-- `handle_clear_basket` (src/user.py 1221-1273): release one reservation
per held lot (batched by product id) and empty the basket string. -/
def clearBasket (s : State) (uid : Nat) : State :=
  match findUser s.users uid with
  | none => s
  | some u =>
    if u.basket = [] then s
    else
      { s with
        products := releaseAll s.products u.basket
        users := updateUser s.users uid (fun v => { v with basket := [] }) }

/-- `round(x, 2)` of Python, on exact rationals: round to the nearest
multiple of 1/100, ties to the even multiple (the documented behavior of
Python's `round`). -/
def roundHalfEvenInt (q : Rat) : Int :=
  if q - ⌊q⌋ < 1 / 2 then ⌊q⌋
  else if 1 / 2 < q - ⌊q⌋ then ⌊q⌋ + 1
  else if ⌊q⌋ % 2 = 0 then ⌊q⌋ else ⌊q⌋ + 1

/-- Round a currency amount to two decimal places. -/
def round2 (q : Rat) : Rat :=
  (roundHalfEvenInt (100 * q) : Rat) / 100

/-- The unclamped discount amount (src/user.py 760-763): `percentage`
computes `current_total * value / 100`, `fixed` uses `value` directly. -/
def discountRaw (cd : DiscountCode) (currentTotal : Rat) : Rat :=
  match cd.dtype with
  | .percentage => currentTotal * cd.value / 100
  | .fixed => cd.value

/-- Failure reasons of `validate_discount_code`, in source order. -/
inductive DiscountFail where
  | noCode
  | notFound
  | inactive
  | expired
  | usageLimitReached
  deriving Repr, DecidableEq

/-- Result of `validate_discount_code`. -/
inductive ValidateResult where
  | invalid (reason : DiscountFail)
  | valid (discountAmount finalTotal : Rat)
  deriving Repr, DecidableEq

/-- `validate_discount_code` (src/user.py 728-791).  A pure read of the
`discount_codes` table (the source runs a single SELECT and no UPDATE, so
the validator mutates nothing; in particular `uses_count` is untouched).
Checks, in order: code given, code exists, active flag, expiry timestamp
(`datetime.now() > expiry_dt` rejects), usage cap
(`uses_count >= max_uses` rejects); then computes the amount
(`percentage`: `total * value / 100`; `fixed`: `value`), caps it at the
current total, and rounds amount and remainder to currency precision. -/
def validateDiscountCode (codes : List DiscountCode) (codeText : String)
    (currentTotal : Rat) (now : Rat) : ValidateResult :=
  if codeText = "" then .invalid .noCode
  else
    match codes.find? (fun cd => cd.code = codeText) with
    | none => .invalid .notFound
    | some cd =>
      if ¬ cd.isActive then .invalid .inactive
      else if cd.expiryDate.any (fun exp => exp < now) then .invalid .expired
      else if cd.maxUses.any (fun m => m ≤ cd.usesCount) then
        .invalid .usageLimitReached
      else
        let amount := min (discountRaw cd currentTotal) currentTotal
        let final := max 0 (currentTotal - amount)
        .valid (round2 amount) (round2 final)

/-- One iteration of the snapshot loop of `process_purchase_with_balance`
(src/payment.py 643-657).  `dict` is `product_db_details`, the row dump
fetched once before the loop; `ps` is the live table.  Returns the updated
table, whether the line was finalized, and the logged price on success:

* details absent → the line is recorded as sold out, no effect;
* `UPDATE ... SET reserved = MAX(0, reserved - 1) WHERE id = ?` matching
  no row (`rowcount == 0`) → sold out, no effect;
* `UPDATE ... SET available = available - 1 WHERE id = ? AND available > 0`
  matching no row → sold out, and the reservation decrement is undone by
  `UPDATE products SET reserved = reserved + 1`;
* otherwise the line is finalized at the price of the pre-loop row dump. -/
def processSnapshotItem (dict : List Lot) (ps : List Lot) (pid : Nat) :
    List Lot × Bool × Rat :=
  match findLot dict pid with
  | none => (ps, false, 0)
  | some details =>
    match findLot ps pid with
    | none => (ps, false, 0)
    | some live =>
      let ps1 := updateLot ps pid (fun l => { l with reserved := max 0 (l.reserved - 1) })
      if 0 < live.available then
        (updateLot ps1 pid (fun l => { l with available := l.available - 1 }),
          true, details.price)
      else
        (updateLot ps1 pid (fun l => { l with reserved := l.reserved + 1 }), false, 0)

/-- The whole snapshot loop: returns the updated table, the
`purchases_to_insert` rows, the `processed_product_ids` and the product ids
of the `sold_out_during_process` lines, each in snapshot order. -/
def settleLoop (dict : List Lot) (uid : Nat) (date : Rat) :
    List Lot → List Hold → List Lot × List Purchase × List Nat × List Nat
  | ps, [] => (ps, [], [], [])
  | ps, h :: rest =>
    let step := processSnapshotItem dict ps h.productId
    let tail := settleLoop dict uid date step.1 rest
    if step.2.1 then
      (tail.1, ⟨uid, h.productId, step.2.2, date⟩ :: tail.2.1,
        h.productId :: tail.2.2.1, tail.2.2.2)
    else
      (tail.1, tail.2.1, tail.2.2.1, h.productId :: tail.2.2.2)

/-- Every observable outcome of a balance settlement. -/
structure SettleResult where
  txnState : State
  ok : Bool
  inserted : List Purchase
  processed : List Nat
  soldOut : List Nat
  finalState : State
  deriving Repr, DecidableEq

/-- `product_db_details`: the pre-loop dump of the `products` rows whose
ids occur in the snapshot (src/payment.py 636-641). -/
def settleDict (s : State) (snapshot : List Hold) : List Lot :=
  s.products.filter (fun l => l.id ∈ snapshot.map (fun h => h.productId))

/-- The snapshot loop run against state `s`. -/
def settleRun (s : State) (uid : Nat) (date : Rat) (snapshot : List Hold) :
    List Lot × List Purchase × List Nat × List Nat :=
  settleLoop (settleDict s snapshot) uid date s.products snapshot

/-- The state the settlement transaction commits (src/payment.py 663-668):
balance already debited, loop effects applied, purchase rows inserted,
`total_purchases` bumped, the used discount code's `uses_count` bumped,
basket string emptied. -/
def commitState (s : State) (uid : Nat) (amount : Rat)
    (discountCode : Option String)
    (run : List Lot × List Purchase × List Nat × List Nat) : State :=
  { products := run.1
    users := updateUser
      (updateUser s.users uid (fun v => { v with balance := v.balance - amount }))
      uid (fun v => { v with
        totalPurchases := v.totalPurchases + run.2.1.length
        basket := [] })
    purchases := s.purchases ++ run.2.1
    discountCodes :=
      match discountCode with
      | none => s.discountCodes
      | some codeText =>
        s.discountCodes.map (fun cd =>
          if cd.code = codeText then { cd with usesCount := cd.usesCount + 1 }
          else cd) }

/-- The post-transaction cleanup (src/payment.py 728-751): delete each
finalized lot's row, each in its own later transaction. -/
def cleanupState (st : State) (processed : List Nat) : State :=
  { st with products := st.products.filter (fun l => ¬ l.id ∈ processed) }

/-- `process_purchase_with_balance` (src/payment.py 598-769).  The
`BEGIN EXCLUSIVE` transaction (lines 620-668): reject an empty snapshot or
a negative amount; abort unchanged when the balance row is missing or below
the amount; debit the full pre-computed `amount`; run the snapshot loop; if
no line was finalized roll everything back (including the debit) and fail;
otherwise commit `commitState` (`txnState` is what this commit makes
durable).  The post-transaction cleanup then deletes each finalized lot's
row in separate later transactions, giving `finalState`.  On any failure
both states equal the input state. -/
def processPurchaseWithBalance (s : State) (uid : Nat) (amount : Rat)
    (snapshot : List Hold) (discountCode : Option String) (date : Rat) :
    SettleResult :=
  if snapshot = [] then ⟨s, false, [], [], [], s⟩
  else if amount < 0 then ⟨s, false, [], [], [], s⟩
  else
    match findUser s.users uid with
    | none => ⟨s, false, [], [], [], s⟩
    | some u =>
      if u.balance < amount then ⟨s, false, [], [], [], s⟩
      else
        let run := settleRun s uid date snapshot
        if run.2.1 = [] then ⟨s, false, [], [], run.2.2.2, s⟩
        else
          let txn := commitState s uid amount discountCode run
          ⟨txn, true, run.2.1, run.2.2.1, run.2.2.2, cleanupState txn run.2.2.1⟩

/-- The snapshot taken by `handle_confirm_pay` (src/payment.py 806-819):
the basket lines whose product row still exists. -/
def checkoutSnapshot (s : State) (basket : List Hold) : List Hold :=
  basket.filter (fun h => (findLot s.products h.productId).isSome)

/-- `original_total` of `handle_confirm_pay`: the sum of the live DB prices
of the snapshot lines. -/
def checkoutOriginalTotal (s : State) (basket : List Hold) : Rat :=
  ((checkoutSnapshot s basket).filterMap
    (fun h => (findLot s.products h.productId).map (fun l => l.price))).sum

/-- `final_total` of `handle_confirm_pay` (src/payment.py 830-843): the
pre-computed total of the full snapshot, re-validating the applied discount
against the live subtotal and falling back to the undiscounted subtotal if
the code became invalid. -/
def checkoutFinalTotal (s : State) (basket : List Hold)
    (discountCode : Option String) (now : Rat) : Rat :=
  let orig := checkoutOriginalTotal s basket
  match discountCode with
  | none => orig
  | some codeText =>
    match validateDiscountCode s.discountCodes codeText orig now with
    | .valid _ f => f
    | .invalid _ => orig

/-- The discount code actually charged with: dropped when re-validation
fails (src/payment.py 839-842). -/
def checkoutDiscountCode (s : State) (basket : List Hold)
    (discountCode : Option String) (now : Rat) : Option String :=
  match discountCode with
  | none => none
  | some codeText =>
    match validateDiscountCode s.discountCodes codeText
        (checkoutOriginalTotal s basket) now with
    | .valid _ _ => some codeText
    | .invalid _ => none

/-- `handle_confirm_pay` (src/payment.py 773-907) in the balance-pays case,
as one sequential operation: lazy sweep, snapshot and totals from the swept
state, then—when the snapshot is non-empty and the balance covers the
total—the balance settlement.  The insufficient-balance and empty-basket
branches change nothing beyond the sweep. -/
def checkoutWithBalance (s : State) (uid : Nat) (discountCode : Option String)
    (now : Rat) (date : Rat) : State :=
  let s1 := clearExpiredBasket s uid now
  let basket := basketOf s1 uid
  let snapshot := checkoutSnapshot s1 basket
  if snapshot = [] then s1
  else
    let amount := checkoutFinalTotal s1 basket discountCode now
    if amount < 0 then s1
    else
      match findUser s1.users uid with
      | none => s1
      | some u =>
        if u.balance < amount then s1
        else
          (processPurchaseWithBalance s1 uid amount snapshot
            (checkoutDiscountCode s1 basket discountCode now) date).finalState

/-- `process_successful_refill` (src/payment.py 528-584): after a refill
invoice is observed paid, add the confirmed amount to the user's balance.
The invoice id parameter is only logged by the source: no processed-invoice
record is written and nothing in the schema keys the credit to it. -/
def processSuccessfulRefill (s : State) (uid : Nat) (amountToAdd : Rat)
    (_invoiceId : Nat) : State × Bool :=
  if amountToAdd ≤ 0 then (s, false)
  else
    match findUser s.users uid with
    | none => (s, false)
    | some _ =>
      ({ s with
          users := updateUser s.users uid
            (fun v => { v with balance := v.balance + amountToAdd }) },
        true)

/-- `id INTEGER PRIMARY KEY` of the `products` table: row ids are unique. -/
def NodupIds (ps : List Lot) : Prop :=
  (ps.map (fun l => l.id)).Nodup

/-- `user_id INTEGER PRIMARY KEY` of the `users` table. -/
def NodupUserIds (us : List User) : Prop :=
  (us.map (fun u => u.userId)).Nodup

/-- How many live holds, across a user list, reference lot `pid`. -/
def totalHoldsUsers (us : List User) (pid : Nat) : Nat :=
  (us.map (fun u => countHolds u.basket pid)).sum

/-- How many live holds, across every user, reference lot `pid`. -/
def totalHolds (s : State) (pid : Nat) : Nat :=
  totalHoldsUsers s.users pid

/-- The engine's state invariant: primary keys are unique, every lot
satisfies `0 <= reserved <= available`, and each lot's `reserved` equals
the number of live holds referencing it. -/
def Inv (s : State) : Prop :=
  NodupIds s.products ∧ NodupUserIds s.users ∧
  (∀ l ∈ s.products, 0 ≤ l.reserved ∧ l.reserved ≤ l.available) ∧
  (∀ l ∈ s.products, l.reserved = (totalHolds s l.id : Int))

/-- One operation of the engine.  The basket operations run for users whose
row exists (the `/start` handler inserts it before any interaction). -/
inductive Step : State → State → Prop where
  | add (s : State) (uid c d t sz : Nat) (pr now : Rat)
      (hu : (findUser s.users uid).isSome) :
      Step s (addToBasket s uid c d t sz pr now).1
  | remove (s : State) (uid pid : Nat) : Step s (removeFromBasket s uid pid)
  | clear (s : State) (uid : Nat) : Step s (clearBasket s uid)
  | lazySweep (s : State) (uid : Nat) (now : Rat) :
      Step s (clearExpiredBasket s uid now)
  | globalSweep (s : State) (now : Rat) : Step s (clearAllExpiredBaskets s now)
  | checkout (s : State) (uid : Nat) (dc : Option String) (now date : Rat) :
      Step s (checkoutWithBalance s uid dc now date)

/-- States reachable by some sequence of engine operations. -/
def Reachable : State → State → Prop :=
  Relation.ReflTransGen Step

/-- The claim's reading of `addToBasket`, stated for comparison with the
source-derived `addToBasket`: it "first runs the lazy expiry sweep for
that shopper (releasing that shopper's expired holds) before attempting
the reservation". -/
def addToBasketSweepFirst (s : State) (uid : Nat) (c d t sz : Nat)
    (pr : Rat) (now : Rat) : State × AddResult :=
  addToBasket (clearExpiredBasket s uid now) uid c d t sz pr now

/-! ### Concrete states used to evaluate the definitions -/

/-- A fresh shopper with an empty balance. -/
def exRefillState : State := ⟨[], [⟨1, 0, [], 0⟩], [], []⟩

/-- A shopper with funds; the products table is empty. -/
def exEmptyShopState : State := ⟨[], [⟨1, 50, [], 0⟩], [], []⟩

/-- One lot (id 5) with two holds of shopper 1, created at times 0 and -1. -/
def exSweepState : State :=
  ⟨[⟨5, 1, 1, 1, 1, 10, 2, 2⟩], [⟨1, 0, [⟨5, 0⟩, ⟨5, -1⟩], 0⟩], [], []⟩

/-- Shopper 1 holds lot 5 (hold created at time 0, long expired by time
1000); lot 6 is free and matches the same catalog filter. -/
def exAddState : State :=
  ⟨[⟨5, 1, 1, 1, 1, 10, 1, 1⟩, ⟨6, 1, 1, 1, 1, 10, 1, 0⟩],
    [⟨1, 0, [⟨5, 0⟩], 0⟩], [], []⟩

/-- Shopper 1 has funds and holds lot 1 (price 10), which is in stock. -/
def exSettleState : State :=
  ⟨[⟨1, 1, 1, 1, 1, 10, 1, 1⟩], [⟨1, 50, [⟨1, 0⟩], 0⟩], [], []⟩

/-- Shopper 1 has funds and holds lots 1 and 2 (price 10 each); lot 2's row
was deleted by a concurrent settlement after the checkout snapshot was
taken, so only lot 1 remains. -/
def exPartialState : State :=
  ⟨[⟨1, 1, 1, 1, 1, 10, 1, 1⟩], [⟨1, 50, [⟨1, 0⟩, ⟨2, 0⟩], 0⟩], [], []⟩

/-- The checkout-start state for `exPartialState`: both lots still exist. -/
def exPartialState0 : State :=
  ⟨[⟨1, 1, 1, 1, 1, 10, 1, 1⟩, ⟨2, 1, 1, 1, 1, 10, 1, 1⟩],
    [⟨1, 50, [⟨1, 0⟩, ⟨2, 0⟩], 0⟩], [], []⟩

/-- A shopper with no holds and one free lot (id 6). -/
def exRoundTripState : State :=
  ⟨[⟨6, 1, 1, 1, 1, 10, 1, 0⟩], [⟨1, 0, [], 0⟩], [], []⟩

/-- A discount-codes table exercising every rule of the validator. -/
def exCodes : List DiscountCode :=
  [⟨"SAVE10", .percentage, 10, true, none, 0, none⟩,
    ⟨"CAP", .fixed, 5, true, some 1, 1, none⟩,
    ⟨"OFF", .percentage, 10, false, none, 0, none⟩,
    ⟨"OLD", .percentage, 10, true, none, 0, some 100⟩]

/-! ### Theorems -/

/-- `users.find?` and `users.map` commute when the map keeps user ids. -/
theorem findUser_map (us : List User) (uid : Nat) (g : User → User)
    (hg : ∀ u, (g u).userId = u.userId) :
    findUser (us.map g) uid = (findUser us uid).map g := by
  induction us with
  | nil => rfl
  | cons u rest ih =>
    by_cases h : u.userId = uid
    · simp [findUser, List.find?_cons, hg, h]
    · simpa [findUser, List.find?_cons, hg, h] using ih

/-- Reading back the updated user row. -/
theorem findUser_updateUser (us : List User) (uid : Nat) (f : User → User)
    (hf : ∀ u, (f u).userId = u.userId) :
    findUser (updateUser us uid f) uid = (findUser us uid).map f := by
  have hg : ∀ u, ((fun v => if v.userId = uid then f v else v) u).userId = u.userId := by
    intro u; by_cases h : u.userId = uid <;> simp [h, hf]
  rw [updateUser, findUser_map us uid _ hg]
  cases hfind : findUser us uid with
  | none => rfl
  | some u =>
    have hu : u.userId = uid := by
      have := List.find?_some hfind
      simpa using this
    simp [hu]

/-- A user update leaves other users' rows alone. -/
theorem findUser_updateUser_ne (us : List User) (uid uid2 : Nat) (f : User → User)
    (hf : ∀ u, (f u).userId = u.userId) (hne : uid2 ≠ uid) :
    findUser (updateUser us uid f) uid2 = findUser us uid2 := by
  have hg : ∀ u, ((fun v => if v.userId = uid then f v else v) u).userId = u.userId := by
    intro u; by_cases h : u.userId = uid <;> simp [h, hf]
  rw [updateUser, findUser_map us uid2 _ hg]
  cases hfind : findUser us uid2 with
  | none => rfl
  | some u =>
    have hu : u.userId = uid2 := by
      have := List.find?_some hfind
      simpa using this
    have hgu : (if u.userId = uid then f u else u) = u := by
      rw [hu, if_neg hne]
    simp [hgu]

/-- `products.find?` and `products.map` commute when the map keeps ids. -/
theorem findLot_map (ps : List Lot) (pid : Nat) (g : Lot → Lot)
    (hg : ∀ l, (g l).id = l.id) :
    findLot (ps.map g) pid = (findLot ps pid).map g := by
  induction ps with
  | nil => rfl
  | cons l rest ih =>
    by_cases h : l.id = pid
    · simp [findLot, List.find?_cons, hg, h]
    · simpa [findLot, List.find?_cons, hg, h] using ih

/-- Reading back the updated lot row. -/
theorem findLot_updateLot (ps : List Lot) (pid : Nat) (f : Lot → Lot)
    (hf : ∀ l, (f l).id = l.id) :
    findLot (updateLot ps pid f) pid = (findLot ps pid).map f := by
  have hg : ∀ l, ((fun p => if p.id = pid then f p else p) l).id = l.id := by
    intro l; by_cases h : l.id = pid <;> simp [h, hf]
  rw [updateLot, findLot_map ps pid _ hg]
  cases hfind : findLot ps pid with
  | none => rfl
  | some l =>
    have hl : l.id = pid := by
      have := List.find?_some hfind
      simpa using this
    simp [hl]

/-- A lot update leaves other rows alone. -/
theorem findLot_updateLot_ne (ps : List Lot) (pid pid2 : Nat) (f : Lot → Lot)
    (hf : ∀ l, (f l).id = l.id) (hne : pid2 ≠ pid) :
    findLot (updateLot ps pid f) pid2 = findLot ps pid2 := by
  have hg : ∀ l, ((fun p => if p.id = pid then f p else p) l).id = l.id := by
    intro l; by_cases h : l.id = pid <;> simp [h, hf]
  rw [updateLot, findLot_map ps pid2 _ hg]
  cases hfind : findLot ps pid2 with
  | none => rfl
  | some l =>
    have hl : l.id = pid2 := by
      have := List.find?_some hfind
      simpa using this
    have hgl : (if l.id = pid then f l else l) = l := by
      rw [hl, if_neg hne]
    simp [hgl]

/-- C3: the top-up settlement is NOT idempotent per invoice.  At the
failing input — shopper 1 with balance 0, the same paid confirmation for
invoice 555 over 10 EUR observed twice (the only guard in the source is
the in-memory `pending_payment` session entry, so two status checks
interleaved at the awaited gateway call, or a session restored after a
restart, both reach `process_successful_refill`) — the source credits the
balance on each observation: the second call succeeds again and the
balance ends at 20, not 10.  No durable processed-invoice record keyed by
the invoice id exists anywhere in the schema. -/
theorem refill_double_credit_at_failing_input :
    (processSuccessfulRefill exRefillState 1 10 555).2 = true ∧
    (processSuccessfulRefill
      (processSuccessfulRefill exRefillState 1 10 555).1 1 10 555).2 = true ∧
    findUser (processSuccessfulRefill
      (processSuccessfulRefill exRefillState 1 10 555).1 1 10 555).1.users 1 =
      some ⟨1, 20, [], 0⟩ := by
  refine ⟨?_, ?_, ?_⟩ <;>
    norm_num [processSuccessfulRefill, exRefillState, findUser, updateUser, List.find?]

/-- C7 (counterexample): `handle_add_to_basket` does not run the lazy
expiry sweep first.  In `exAddState` shopper 1 has a long-expired hold on
lot 5; at time 1000 the source's add reserves lot 6 and leaves the expired
hold and lot 5's reservation untouched, while the claim's sweep-first
reading would have released lot 5 (and then reserved it, being the free
match with the least id). -/
theorem add_to_basket_no_sweep_counterexample :
    addToBasket exAddState 1 1 1 1 1 10 1000 ≠
      addToBasketSweepFirst exAddState 1 1 1 1 1 10 1000 := by
  intro h
  have h6 : (addToBasket exAddState 1 1 1 1 1 10 1000).2 = .reserved 6 := by
    norm_num [addToBasket, exAddState, selectMinId, freeLotMatch, List.filter]
  have h5 : (addToBasketSweepFirst exAddState 1 1 1 1 1 10 1000).2 = .reserved 5 := by
    norm_num [addToBasketSweepFirst, addToBasket, clearExpiredBasket, exAddState,
      selectMinId, freeLotMatch, holdAlive, BASKET_TIMEOUT, releaseAll, countHolds,
      findUser, updateUser, List.find?, List.filter]
  rw [h, h5] at h6
  cases h6

/-- C8 (counterexample): finalizing a sale is not one atomic step.  Settling
shopper 1's hold on lot 1 in `exSettleState` commits a transaction whose
durable state still contains lot 1's row with `available` already
decremented from 1 to 0; the row is only deleted by the separate
post-transaction cleanup.  So an observable intermediate state exists in
which the sale's decrement has happened but the row survives. -/
theorem finalize_sale_intermediate_state_counterexample :
    (processPurchaseWithBalance exSettleState 1 10 [⟨1, 0⟩] none 100).ok = true ∧
    findLot exSettleState.products 1 = some ⟨1, 1, 1, 1, 1, 10, 1, 1⟩ ∧
    findLot (processPurchaseWithBalance exSettleState 1 10 [⟨1, 0⟩] none 100).txnState.products 1 =
      some ⟨1, 1, 1, 1, 1, 10, 0, 0⟩ ∧
    findLot (processPurchaseWithBalance exSettleState 1 10 [⟨1, 0⟩] none 100).finalState.products 1 =
      none := by
  refine ⟨?_, ?_, ?_, ?_⟩ <;>
    norm_num [processPurchaseWithBalance, settleRun, settleLoop, settleDict,
      processSnapshotItem, commitState, cleanupState, exSettleState, findUser, findLot,
      updateUser, updateLot, List.find?, List.filter]

/-- C1: if a balance settlement finalizes zero snapshot lines (no row is
inserted into the purchases log), the whole transaction — including the
balance debit — is rolled back: the committed state and the final state
both equal the input state (balance, products table and purchases log
unchanged) and the operation reports failure. -/
theorem balance_settle_zero_finalized_rolls_back
    (s : State) (uid : Nat) (amount : Rat) (snapshot : List Hold)
    (dc : Option String) (date : Rat)
    (h : (processPurchaseWithBalance s uid amount snapshot dc date).inserted = []) :
    (processPurchaseWithBalance s uid amount snapshot dc date).ok = false ∧
    (processPurchaseWithBalance s uid amount snapshot dc date).txnState = s ∧
    (processPurchaseWithBalance s uid amount snapshot dc date).finalState = s := by
  revert h
  simp only [processPurchaseWithBalance]
  split
  · intro _; exact ⟨rfl, rfl, rfl⟩
  split
  · intro _; exact ⟨rfl, rfl, rfl⟩
  split
  · intro _; exact ⟨rfl, rfl, rfl⟩
  split
  · intro _; exact ⟨rfl, rfl, rfl⟩
  split
  · intro _; exact ⟨rfl, rfl, rfl⟩
  next hne =>
    intro h
    exact absurd h hne

/-- C1 witness: a settlement whose only snapshot line references a vanished
lot finalizes nothing and is fully rolled back. -/
theorem balance_settle_zero_finalized_rolls_back_witness :
    (processPurchaseWithBalance exEmptyShopState 1 5 [⟨9, 0⟩] none 100).inserted = [] ∧
    ((processPurchaseWithBalance exEmptyShopState 1 5 [⟨9, 0⟩] none 100).ok = false ∧
      (processPurchaseWithBalance exEmptyShopState 1 5 [⟨9, 0⟩] none 100).txnState =
        exEmptyShopState ∧
      (processPurchaseWithBalance exEmptyShopState 1 5 [⟨9, 0⟩] none 100).finalState =
        exEmptyShopState) := by
  have hins : (processPurchaseWithBalance exEmptyShopState 1 5 [⟨9, 0⟩] none 100).inserted = [] := by
    norm_num [processPurchaseWithBalance, settleRun, settleLoop, settleDict,
      processSnapshotItem, exEmptyShopState, findUser, findLot, updateUser, updateLot,
      List.find?, List.filter]
  exact ⟨hins,
    balance_settle_zero_finalized_rolls_back exEmptyShopState 1 5 [⟨9, 0⟩] none 100 hins⟩

/-- C5: the discount validator checks its rules in order with the first
failure winning: unknown code → not found; inactive flag → inactive; a set
expiry timestamp in the past → expired; otherwise a reached usage cap
(`usesSoFar >= maxUses`) → usage-limit-reached, for every subtotal.  The
validator is embedded as a pure function of the discount table (the source
runs a single SELECT and no UPDATE), so it mutates nothing — in particular
not `uses_count`. -/
theorem discount_validator_first_failure_wins
    (codes : List DiscountCode) (codeText : String) (subtotal now : Rat)
    (hne : codeText ≠ "") :
    (codes.find? (fun cd => cd.code = codeText) = none →
      validateDiscountCode codes codeText subtotal now = .invalid .notFound) ∧
    (∀ cd, codes.find? (fun cd => cd.code = codeText) = some cd →
      (cd.isActive = false →
        validateDiscountCode codes codeText subtotal now = .invalid .inactive) ∧
      (cd.isActive = true → ∀ exp, cd.expiryDate = some exp → exp < now →
        validateDiscountCode codes codeText subtotal now = .invalid .expired) ∧
      (cd.isActive = true →
        cd.expiryDate.any (fun exp => exp < now) = false →
        ∀ m, cd.maxUses = some m → m ≤ cd.usesCount →
          validateDiscountCode codes codeText subtotal now =
            .invalid .usageLimitReached)) := by
  refine ⟨?_, ?_⟩
  · intro hfind
    simp [validateDiscountCode, hne, hfind]
  · intro cd hfind
    refine ⟨?_, ?_, ?_⟩
    · intro hact
      simp [validateDiscountCode, hne, hfind, hact]
    · intro hact exp hexp hlt
      simp [validateDiscountCode, hne, hfind, hact, hexp, hlt]
    · intro hact hexp m hm hle
      simp [validateDiscountCode, hne, hfind, hact, hexp, hm, hle]

/-- C5 witness: code `CAP` of `exCodes` has `maxUses = 1`, `usesCount = 1`
and is rejected with the usage-limit reason at subtotal 7. -/
theorem discount_validator_first_failure_wins_witness :
    ("CAP" : String) ≠ "" ∧
    ((exCodes.find? (fun cd => cd.code = "CAP") = none →
      validateDiscountCode exCodes "CAP" 7 0 = .invalid .notFound) ∧
    (∀ cd, exCodes.find? (fun cd => cd.code = "CAP") = some cd →
      (cd.isActive = false →
        validateDiscountCode exCodes "CAP" 7 0 = .invalid .inactive) ∧
      (cd.isActive = true → ∀ exp, cd.expiryDate = some exp → exp < 0 →
        validateDiscountCode exCodes "CAP" 7 0 = .invalid .expired) ∧
      (cd.isActive = true →
        cd.expiryDate.any (fun exp => exp < 0) = false →
        ∀ m, cd.maxUses = some m → m ≤ cd.usesCount →
          validateDiscountCode exCodes "CAP" 7 0 =
            .invalid .usageLimitReached))) :=
  ⟨by decide, discount_validator_first_failure_wins exCodes "CAP" 7 0 (by decide)⟩

/-- C10: in both the lazy sweep and the global sweep a hold is kept if and
only if `now - creationTimestamp <= BASKET_TIMEOUT` — at an elapsed time
exactly equal to the TTL the hold is still kept; only a strictly greater
elapsed time expires it. -/
theorem sweep_expiry_boundary
    (s : State) (uid : Nat) (now : Rat) (u : User)
    (hu : findUser s.users uid = some u) (h : Hold) :
    (h ∈ basketOf (clearExpiredBasket s uid now) uid ↔
      h ∈ u.basket ∧ now - h.timestamp ≤ BASKET_TIMEOUT) ∧
    (h ∈ basketOf (clearAllExpiredBaskets s now) uid ↔
      h ∈ u.basket ∧ now - h.timestamp ≤ BASKET_TIMEOUT) := by
  constructor
  · unfold clearExpiredBasket
    rw [hu]
    by_cases hb : u.basket = []
    · simp [hb, basketOf, hu]
    · have hupd := findUser_updateUser s.users uid
        (fun v => { v with basket := u.basket.filter (holdAlive now) })
        (fun v => rfl)
      simp [hb, basketOf, hupd, hu, List.mem_filter, holdAlive]
  · have hmap := findUser_map s.users uid
      (fun v => { v with basket := v.basket.filter (holdAlive now) })
      (fun v => rfl)
    simp [clearAllExpiredBaskets, basketOf, hmap, hu, List.mem_filter, holdAlive]

/-- C10 witness: in `exSweepState` at time 900, shopper 1's hold created at
time 0 has elapsed exactly the 900-second TTL and is kept by both sweeps;
its sibling created at time -1 has elapsed 901 and is dropped. -/
theorem sweep_expiry_boundary_witness :
    findUser exSweepState.users 1 = some ⟨1, 0, [⟨5, 0⟩, ⟨5, -1⟩], 0⟩ ∧
    ((⟨5, 0⟩ : Hold) ∈ basketOf (clearExpiredBasket exSweepState 1 900) 1 ↔
      (⟨5, 0⟩ : Hold) ∈ [(⟨5, 0⟩ : Hold), ⟨5, -1⟩] ∧ (900 : Rat) - 0 ≤ BASKET_TIMEOUT) ∧
    ((⟨5, 0⟩ : Hold) ∈ basketOf (clearAllExpiredBaskets exSweepState 900) 1 ↔
      (⟨5, 0⟩ : Hold) ∈ [(⟨5, 0⟩ : Hold), ⟨5, -1⟩] ∧ (900 : Rat) - 0 ≤ BASKET_TIMEOUT) := by
  have hu : findUser exSweepState.users 1 = some ⟨1, 0, [⟨5, 0⟩, ⟨5, -1⟩], 0⟩ := by
    norm_num [exSweepState, findUser, List.find?]
  exact ⟨hu, sweep_expiry_boundary exSweepState 1 900 ⟨1, 0, [⟨5, 0⟩, ⟨5, -1⟩], 0⟩ hu ⟨5, 0⟩⟩

/-- Half-even rounding never goes below the floor. -/
theorem floor_le_roundHalfEvenInt (q : Rat) : ⌊q⌋ ≤ roundHalfEvenInt q := by
  unfold roundHalfEvenInt
  split
  · exact le_refl _
  · split
    · omega
    · split
      · exact le_refl _
      · omega

/-- Half-even rounding never goes above the floor plus one. -/
theorem roundHalfEvenInt_le_floor_add_one (q : Rat) :
    roundHalfEvenInt q ≤ ⌊q⌋ + 1 := by
  unfold roundHalfEvenInt
  split
  · omega
  · split
    · exact le_refl _
    · split
      · omega
      · exact le_refl _

/-- Rounding a nonnegative amount stays nonnegative. -/
theorem roundHalfEvenInt_nonneg (q : Rat) (h : 0 ≤ q) : 0 ≤ roundHalfEvenInt q :=
  le_trans (Int.le_floor.mpr (by exact_mod_cast h)) (floor_le_roundHalfEvenInt q)

/-- Rounding an integer rational is the identity. -/
theorem roundHalfEvenInt_intCast (n : Int) : roundHalfEvenInt (n : Rat) = n := by
  unfold roundHalfEvenInt
  simp [Int.floor_intCast]

/-- Rounding cannot pass an integer bound. -/
theorem roundHalfEvenInt_le_int (q : Rat) (N : Int) (h : q ≤ N) :
    roundHalfEvenInt q ≤ N := by
  have hfl : ⌊q⌋ ≤ N := by
    have h2 := Int.floor_le_floor h
    rwa [Int.floor_intCast] at h2
  rcases lt_or_eq_of_le hfl with hlt | heq
  · have := roundHalfEvenInt_le_floor_add_one q
    omega
  · have hq : q = (N : Rat) := by
      have h1 : (N : Rat) ≤ q := by
        have h2 := Int.floor_le q
        rw [heq] at h2
        exact h2
      exact le_antisymm h h1
    rw [hq, roundHalfEvenInt_intCast]

/-- Away from the half-way tie, rounding commutes with subtraction from an
integer. -/
theorem roundHalfEvenInt_int_sub (N : Int) (u : Rat)
    (ht : u - ⌊u⌋ ≠ 1 / 2) :
    roundHalfEvenInt ((N : Rat) - u) = N - roundHalfEvenInt u := by
  have hfl : (⌊u⌋ : Rat) ≤ u := Int.floor_le u
  have hfu : u < ⌊u⌋ + 1 := Int.lt_floor_add_one u
  by_cases hz : u - ⌊u⌋ = 0
  · have hru : roundHalfEvenInt u = ⌊u⌋ := by
      unfold roundHalfEvenInt
      rw [if_pos (by rw [hz]; norm_num)]
    have h1 : (N : Rat) - u = ((N - ⌊u⌋ : Int) : Rat) := by
      push_cast
      linarith
    rw [h1, roundHalfEvenInt_intCast, hru]
  · have hfpos : 0 < u - ⌊u⌋ := lt_of_le_of_ne (by linarith) (Ne.symm hz)
    have hflt : u - ⌊u⌋ < 1 := by linarith
    have hfloor2 : ⌊(N : Rat) - u⌋ = N - ⌊u⌋ - 1 := by
      rw [Int.floor_eq_iff]
      constructor
      · push_cast
        linarith
      · push_cast
        linarith
    rcases lt_or_gt_of_ne ht with hlt | hgt
    · -- fractional part below one half: `u` rounds down, `N - u` rounds up
      have hru : roundHalfEvenInt u = ⌊u⌋ := by
        unfold roundHalfEvenInt
        rw [if_pos hlt]
      have hr2 : roundHalfEvenInt ((N : Rat) - u) = N - ⌊u⌋ := by
        unfold roundHalfEvenInt
        rw [hfloor2]
        split
        · exfalso
          push_cast at *
          linarith
        · split
          · omega
          · exfalso
            push_cast at *
            linarith
      rw [hr2, hru]
    · -- fractional part above one half: `u` rounds up, `N - u` rounds down
      have hru : roundHalfEvenInt u = ⌊u⌋ + 1 := by
        unfold roundHalfEvenInt
        rw [if_neg (by linarith), if_pos hgt]
      have hr2 : roundHalfEvenInt ((N : Rat) - u) = N - ⌊u⌋ - 1 := by
        unfold roundHalfEvenInt
        rw [hfloor2]
        split
        · rfl
        · exfalso
          push_cast at *
          linarith
      rw [hr2, hru]
      omega

/-- Rounding a two-decimal amount is the identity. -/
theorem round2_den_one (s : Rat) (hs : (100 * s).den = 1) : round2 s = s := by
  have hnum : ((100 * s).num : Rat) = 100 * s := by
    rw [← Rat.den_eq_one_iff]; exact hs
  rw [round2, ← hnum, roundHalfEvenInt_intCast, hnum]
  field_simp

/-- `round2` of a nonnegative amount is nonnegative. -/
theorem round2_nonneg (q : Rat) (h : 0 ≤ q) : 0 ≤ round2 q := by
  have := roundHalfEvenInt_nonneg (100 * q) (by positivity)
  rw [round2]
  positivity

/-- `round2` cannot pass a two-decimal bound. -/
theorem round2_le (q s : Rat) (hq : q ≤ s) (hs : (100 * s).den = 1) :
    round2 q ≤ s := by
  have hnum : ((100 * s).num : Rat) = 100 * s := by
    rw [← Rat.den_eq_one_iff]; exact hs
  have h1 : roundHalfEvenInt (100 * q) ≤ (100 * s).num := by
    apply roundHalfEvenInt_le_int
    rw [hnum]
    linarith
  have h2 : (roundHalfEvenInt (100 * q) : Rat) ≤ 100 * s := by
    calc (roundHalfEvenInt (100 * q) : Rat) ≤ ((100 * s).num : Rat) := by exact_mod_cast h1
    _ = 100 * s := hnum
  rw [round2]
  linarith

/-- Away from the half-cent tie, `round2` commutes with subtraction from a
two-decimal amount. -/
theorem round2_sub (s q : Rat) (hs : (100 * s).den = 1)
    (ht : 100 * q - ⌊100 * q⌋ ≠ 1 / 2) :
    round2 (s - q) = s - round2 q := by
  have hnum : ((100 * s).num : Rat) = 100 * s := by
    rw [← Rat.den_eq_one_iff]; exact hs
  have h1 : 100 * (s - q) = (((100 * s).num : Int) : Rat) - 100 * q := by
    rw [hnum]; ring
  rw [round2, h1, roundHalfEvenInt_int_sub _ _ ht, round2]
  push_cast
  rw [hnum]
  ring

/-- C6: for a valid discount code (admin creation enforces a positive
`value`) and a two-decimal subtotal, the computed discount amount is the
raw amount (`subtotal * value / 100` for percentage, `value` for fixed)
clamped to `[0, subtotal]` and rounded to two decimals — hence never
negative and never above the subtotal — and the final total is
`subtotal - discountAmount`.  The half-cent-tie exclusion `ht` reflects
that an exact decimal tie has no faithful binary-float counterpart. -/
theorem discount_amount_clamped_rounded
    (codes : List DiscountCode) (codeText : String) (subtotal now : Rat)
    (cd : DiscountCode)
    (hne : codeText ≠ "")
    (hfind : codes.find? (fun c => c.code = codeText) = some cd)
    (hact : cd.isActive = true)
    (hexp : cd.expiryDate.any (fun exp => exp < now) = false)
    (hmax : cd.maxUses.any (fun m => m ≤ cd.usesCount) = false)
    (hval : 0 ≤ cd.value)
    (hsub : 0 ≤ subtotal)
    (hden : (100 * subtotal).den = 1)
    (ht : 100 * min (discountRaw cd subtotal) subtotal -
      ⌊100 * min (discountRaw cd subtotal) subtotal⌋ ≠ 1 / 2) :
    validateDiscountCode codes codeText subtotal now =
      .valid (round2 (max 0 (min (discountRaw cd subtotal) subtotal)))
        (subtotal - round2 (max 0 (min (discountRaw cd subtotal) subtotal))) ∧
    0 ≤ round2 (max 0 (min (discountRaw cd subtotal) subtotal)) ∧
    round2 (max 0 (min (discountRaw cd subtotal) subtotal)) ≤ subtotal := by
  have hraw : 0 ≤ discountRaw cd subtotal := by
    unfold discountRaw
    cases cd.dtype
    · positivity
    · exact hval
  have hminnn : 0 ≤ min (discountRaw cd subtotal) subtotal :=
    le_min hraw hsub
  have hclamp : max 0 (min (discountRaw cd subtotal) subtotal) =
      min (discountRaw cd subtotal) subtotal :=
    max_eq_right hminnn
  have hminle : min (discountRaw cd subtotal) subtotal ≤ subtotal :=
    min_le_right _ _
  have hfinal : max 0 (subtotal - min (discountRaw cd subtotal) subtotal) =
      subtotal - min (discountRaw cd subtotal) subtotal :=
    max_eq_right (by linarith)
  refine ⟨?_, ?_, ?_⟩
  · simp only [validateDiscountCode, if_neg hne, hfind, hact, hexp, hmax]
    rw [hclamp, hfinal, round2_sub subtotal _ hden ht]
    simp
  · rw [hclamp]
    exact round2_nonneg _ hminnn
  · rw [hclamp]
    exact round2_le _ _ hminle hden

/-- C6 witness (Scenario A): the percentage-10 code `SAVE10` applied to a
one-item subtotal of 12.50 yields discount amount 1.25 and final total
11.25. -/
theorem discount_amount_clamped_rounded_witness :
    (("SAVE10" : String) ≠ "" ∧
      exCodes.find? (fun c => c.code = "SAVE10") =
        some ⟨"SAVE10", .percentage, 10, true, none, 0, none⟩ ∧
      (0 : Rat) ≤ 25 / 2 ∧ ((100 : Rat) * (25 / 2)).den = 1) ∧
    validateDiscountCode exCodes "SAVE10" (25 / 2) 0 = .valid (5 / 4) (45 / 4) := by
  have hcd : exCodes.find? (fun c => c.code = "SAVE10") =
      some ⟨"SAVE10", .percentage, 10, true, none, 0, none⟩ := by
    decide
  have hrawval : discountRaw ⟨"SAVE10", .percentage, 10, true, none, 0, none⟩ (25 / 2) =
      5 / 4 := by
    norm_num [discountRaw]
  have hminval : min (discountRaw ⟨"SAVE10", .percentage, 10, true, none, 0, none⟩
      (25 / 2)) ((25 : Rat) / 2) = 5 / 4 := by
    rw [hrawval]
    norm_num
  have h := discount_amount_clamped_rounded exCodes "SAVE10" (25 / 2) 0
    ⟨"SAVE10", .percentage, 10, true, none, 0, none⟩
    (by decide) hcd rfl rfl rfl (by norm_num) (by norm_num) (by norm_num)
    (by rw [hminval]; norm_num)
  refine ⟨⟨by decide, hcd, by norm_num, by norm_num⟩, ?_⟩
  rw [h.1, hminval]
  have hr : round2 (max 0 ((5 : Rat) / 4)) = 5 / 4 := by
    rw [max_eq_right (by norm_num)]
    rw [round2]
    norm_num [roundHalfEvenInt]
  rw [hr]
  norm_num

/-- C7 (amended): `addToBasket` does not sweep; it directly attempts the
reservation.  When no matching lot with free stock exists it returns
`OutOfStock` with no state change at all; when one exists (the matching
free row with the least id) it reports it reserved, increments exactly that
lot's reserved count, leaves every other row alone, and appends a hold
carrying the current timestamp to the shopper's hold set — all in the same
transaction. -/
theorem add_to_basket_reserve_behavior
    (s : State) (uid c d t sz : Nat) (pr now : Rat) :
    (selectMinId (s.products.filter (freeLotMatch c d t sz pr)) = none →
      addToBasket s uid c d t sz pr now = (s, .outOfStock)) ∧
    (∀ l, selectMinId (s.products.filter (freeLotMatch c d t sz pr)) = some l →
      (addToBasket s uid c d t sz pr now).2 = .reserved l.id ∧
      findLot (addToBasket s uid c d t sz pr now).1.products l.id =
        (findLot s.products l.id).map (fun p => { p with reserved := p.reserved + 1 }) ∧
      (∀ pid2, pid2 ≠ l.id →
        findLot (addToBasket s uid c d t sz pr now).1.products pid2 =
          findLot s.products pid2) ∧
      (∀ u, findUser s.users uid = some u →
        findUser (addToBasket s uid c d t sz pr now).1.users uid =
          some { u with basket := u.basket ++ [⟨l.id, now⟩] })) := by
  constructor
  · intro hnone
    unfold addToBasket
    rw [hnone]
  · intro l hsel
    unfold addToBasket
    rw [hsel]
    dsimp only
    refine ⟨rfl, ?_, ?_, ?_⟩
    · exact findLot_updateLot s.products l.id _ (fun p => rfl)
    · intro pid2 hne
      exact findLot_updateLot_ne s.products l.id pid2 _ (fun p => rfl) hne
    · intro u hu
      rw [findUser_updateUser s.users uid
        (fun v => { v with basket := v.basket ++ [⟨l.id, now⟩] }) (fun v => rfl), hu]
      rfl

/-- C7 amended witness: in `exRoundTripState` the add reserves free lot 6
and appends the hold; in `exAddState` no lot has price 99, so the add
reports out of stock and changes nothing. -/
theorem add_to_basket_reserve_behavior_witness :
    (addToBasket exRoundTripState 1 1 1 1 1 10 0).2 = .reserved 6 ∧
    findUser (addToBasket exRoundTripState 1 1 1 1 1 10 0).1.users 1 =
      some ⟨1, 0, [⟨6, 0⟩], 0⟩ ∧
    findLot (addToBasket exRoundTripState 1 1 1 1 1 10 0).1.products 6 =
      some ⟨6, 1, 1, 1, 1, 10, 1, 1⟩ ∧
    addToBasket exAddState 1 1 1 1 1 99 0 = (exAddState, .outOfStock) := by
  have hsel : selectMinId (exRoundTripState.products.filter (freeLotMatch 1 1 1 1 10)) =
      some ⟨6, 1, 1, 1, 1, 10, 1, 0⟩ := by
    norm_num [exRoundTripState, selectMinId, freeLotMatch, List.filter]
  have hnone : selectMinId (exAddState.products.filter (freeLotMatch 1 1 1 1 99)) =
      none := by
    norm_num [exAddState, selectMinId, freeLotMatch, List.filter]
  have h1 := (add_to_basket_reserve_behavior exRoundTripState 1 1 1 1 1 10 0).2
    ⟨6, 1, 1, 1, 1, 10, 1, 0⟩ hsel
  have h2 := (add_to_basket_reserve_behavior exAddState 1 1 1 1 1 99 0).1 hnone
  have hu : findUser exRoundTripState.users 1 = some ⟨1, 0, [], 0⟩ := by
    norm_num [exRoundTripState, findUser, List.find?]
  have hl : findLot exRoundTripState.products 6 = some ⟨6, 1, 1, 1, 1, 10, 1, 0⟩ := by
    norm_num [exRoundTripState, findLot, List.find?]
  refine ⟨h1.1, ?_, ?_, h2⟩
  · rw [h1.2.2.2 ⟨1, 0, [], 0⟩ hu]
    rfl
  · rw [h1.2.1, hl]
    rfl

/-- Updating a row never creates or deletes rows. -/
theorem updateLot_isSome (ps : List Lot) (pid pid2 : Nat) (f : Lot → Lot)
    (hf : ∀ l, (f l).id = l.id) :
    (findLot (updateLot ps pid f) pid2).isSome = (findLot ps pid2).isSome := by
  by_cases h : pid2 = pid
  · subst h
    rw [findLot_updateLot ps pid2 f hf]
    cases findLot ps pid2 <;> rfl
  · rw [findLot_updateLot_ne ps pid pid2 f hf h]

/-- One settlement-loop iteration never creates or deletes rows. -/
theorem processSnapshotItem_isSome (dict ps : List Lot) (pid pid2 : Nat) :
    (findLot (processSnapshotItem dict ps pid).1 pid2).isSome =
      (findLot ps pid2).isSome := by
  unfold processSnapshotItem
  split
  · rfl
  · split
    · rfl
    · split
      · dsimp only
        rw [updateLot_isSome _ pid pid2
            (fun l => { l with available := l.available - 1 }) (fun l => rfl),
          updateLot_isSome _ pid pid2
            (fun l => { l with reserved := max 0 (l.reserved - 1) }) (fun l => rfl)]
      · dsimp only
        rw [updateLot_isSome _ pid pid2
            (fun l => { l with reserved := l.reserved + 1 }) (fun l => rfl),
          updateLot_isSome _ pid pid2
            (fun l => { l with reserved := max 0 (l.reserved - 1) }) (fun l => rfl)]

/-- The defining equation of the settlement loop at a cons. -/
theorem settleLoop_cons (dict : List Lot) (uid : Nat) (date : Rat)
    (ps : List Lot) (h : Hold) (rest : List Hold) :
    settleLoop dict uid date ps (h :: rest) =
      if (processSnapshotItem dict ps h.productId).2.1 then
        ((settleLoop dict uid date (processSnapshotItem dict ps h.productId).1 rest).1,
          ⟨uid, h.productId, (processSnapshotItem dict ps h.productId).2.2, date⟩ ::
            (settleLoop dict uid date (processSnapshotItem dict ps h.productId).1
              rest).2.1,
          h.productId ::
            (settleLoop dict uid date (processSnapshotItem dict ps h.productId).1
              rest).2.2.1,
          (settleLoop dict uid date (processSnapshotItem dict ps h.productId).1
            rest).2.2.2)
      else
        ((settleLoop dict uid date (processSnapshotItem dict ps h.productId).1 rest).1,
          (settleLoop dict uid date (processSnapshotItem dict ps h.productId).1
            rest).2.1,
          (settleLoop dict uid date (processSnapshotItem dict ps h.productId).1
            rest).2.2.1,
          h.productId ::
            (settleLoop dict uid date (processSnapshotItem dict ps h.productId).1
              rest).2.2.2) :=
  rfl

/-- The table after a settlement-loop cons step is the table of the tail run
on the stepped products. -/
theorem settleLoop_cons_fst (dict : List Lot) (uid : Nat) (date : Rat)
    (ps : List Lot) (h : Hold) (rest : List Hold) :
    (settleLoop dict uid date ps (h :: rest)).1 =
      (settleLoop dict uid date (processSnapshotItem dict ps h.productId).1 rest).1 := by
  rw [settleLoop_cons]
  split <;> rfl

/-- The whole settlement loop never creates or deletes rows. -/
theorem settleLoop_isSome (dict : List Lot) (uid : Nat) (date : Rat) :
    ∀ (snap : List Hold) (ps : List Lot) (pid2 : Nat),
      (findLot (settleLoop dict uid date ps snap).1 pid2).isSome =
        (findLot ps pid2).isSome := by
  intro snap
  induction snap with
  | nil => intro ps pid2; rfl
  | cons h rest ih =>
    intro ps pid2
    rw [settleLoop_cons_fst, ih, processSnapshotItem_isSome]

/-- A line is finalized only when its row was found in the live table. -/
theorem processSnapshotItem_sold_found (dict ps : List Lot) (pid : Nat)
    (h : (processSnapshotItem dict ps pid).2.1 = true) :
    (findLot ps pid).isSome = true := by
  revert h
  unfold processSnapshotItem
  split
  · intro h; simp at h
  · split
    · intro h; simp at h
    · next live heq =>
      intro _
      rw [heq]
      rfl

/-- Every finalized product id still has its row in the table the loop
returns (updates only, no deletion). -/
theorem settleLoop_processed_found (dict : List Lot) (uid : Nat) (date : Rat) :
    ∀ (snap : List Hold) (ps : List Lot),
      ∀ pid ∈ (settleLoop dict uid date ps snap).2.2.1,
        (findLot (settleLoop dict uid date ps snap).1 pid).isSome = true := by
  intro snap
  induction snap with
  | nil =>
    intro ps pid hmem
    simp [settleLoop] at hmem
  | cons h rest ih =>
    intro ps pid hmem
    by_cases hstep : (processSnapshotItem dict ps h.productId).2.1 = true
    · have hproc : (settleLoop dict uid date ps (h :: rest)).2.2.1 =
          h.productId ::
            (settleLoop dict uid date (processSnapshotItem dict ps h.productId).1
              rest).2.2.1 := by
        rw [settleLoop_cons, if_pos hstep]
      rw [hproc] at hmem
      rw [settleLoop_cons_fst]
      rcases List.mem_cons.mp hmem with heq | hmem2
      · subst heq
        rw [settleLoop_isSome, processSnapshotItem_isSome]
        exact processSnapshotItem_sold_found dict ps _ hstep
      · exact ih _ pid hmem2
    · have hproc : (settleLoop dict uid date ps (h :: rest)).2.2.1 =
          (settleLoop dict uid date (processSnapshotItem dict ps h.productId).1
            rest).2.2.1 := by
        rw [settleLoop_cons, if_neg hstep]
      rw [hproc] at hmem
      rw [settleLoop_cons_fst]
      exact ih _ pid hmem

/-- A successful balance settlement is exactly the committed transaction
followed by the row cleanup. -/
theorem ppwb_ok_commit (s : State) (uid : Nat) (amount : Rat)
    (snapshot : List Hold) (dc : Option String) (date : Rat)
    (hok : (processPurchaseWithBalance s uid amount snapshot dc date).ok = true) :
    processPurchaseWithBalance s uid amount snapshot dc date =
      ⟨commitState s uid amount dc (settleRun s uid date snapshot), true,
        (settleRun s uid date snapshot).2.1,
        (settleRun s uid date snapshot).2.2.1,
        (settleRun s uid date snapshot).2.2.2,
        cleanupState (commitState s uid amount dc (settleRun s uid date snapshot))
          (settleRun s uid date snapshot).2.2.1⟩ := by
  revert hok
  simp only [processPurchaseWithBalance]
  split
  · intro h; simp at h
  split
  · intro h; simp at h
  split
  · intro h; simp at h
  split
  · intro h; simp at h
  split
  · intro h; simp at h
  · intro _; rfl

/-- C8 (amended): the settlement transaction decrements a finalized lot's
counts but does not delete its row — every finalized product id still has
its row in the committed transaction state — and the final state is the
committed state with exactly the finalized rows removed by the separate
post-transaction cleanup.  So sale finalization is two separately-committed
phases, with the committed transaction state observable in between. -/
theorem finalize_sale_two_phase (s : State) (uid : Nat) (amount : Rat)
    (snapshot : List Hold) (dc : Option String) (date : Rat)
    (hok : (processPurchaseWithBalance s uid amount snapshot dc date).ok = true) :
    (∀ pid ∈ (processPurchaseWithBalance s uid amount snapshot dc date).processed,
      (findLot (processPurchaseWithBalance s uid amount snapshot dc date).txnState.products
        pid).isSome = true) ∧
    (processPurchaseWithBalance s uid amount snapshot dc date).finalState.products =
      (processPurchaseWithBalance s uid amount snapshot dc date).txnState.products.filter
        (fun l => ¬ l.id ∈
          (processPurchaseWithBalance s uid amount snapshot dc date).processed) := by
  rw [ppwb_ok_commit s uid amount snapshot dc date hok]
  constructor
  · intro pid hmem
    exact settleLoop_processed_found (settleDict s snapshot) uid date snapshot
      s.products pid hmem
  · rfl

/-- C8 amended witness: the settlement of `exSettleState` finalizes lot 1;
its row survives the commit and is removed by the cleanup filter. -/
theorem finalize_sale_two_phase_witness :
    (processPurchaseWithBalance exSettleState 1 10 [⟨1, 0⟩] none 100).ok = true ∧
    ((∀ pid ∈ (processPurchaseWithBalance exSettleState 1 10 [⟨1, 0⟩] none 100).processed,
      (findLot (processPurchaseWithBalance exSettleState 1 10 [⟨1, 0⟩] none
        100).txnState.products pid).isSome = true) ∧
    (processPurchaseWithBalance exSettleState 1 10 [⟨1, 0⟩] none 100).finalState.products =
      (processPurchaseWithBalance exSettleState 1 10 [⟨1, 0⟩] none
        100).txnState.products.filter
        (fun l => ¬ l.id ∈
          (processPurchaseWithBalance exSettleState 1 10 [⟨1, 0⟩] none 100).processed)) := by
  have hok : (processPurchaseWithBalance exSettleState 1 10 [⟨1, 0⟩] none 100).ok = true := by
    norm_num [processPurchaseWithBalance, settleRun, settleLoop, settleDict,
      processSnapshotItem, commitState, cleanupState, exSettleState, findUser, findLot,
      updateUser, updateLot, List.find?, List.filter]
  exact ⟨hok, finalize_sale_two_phase exSettleState 1 10 [⟨1, 0⟩] none 100 hok⟩

/-- Two updates of the same row compose. -/
theorem updateLot_updateLot (ps : List Lot) (pid : Nat) (f g : Lot → Lot)
    (hf : ∀ l, (f l).id = l.id) :
    updateLot (updateLot ps pid f) pid g = updateLot ps pid (fun l => g (f l)) := by
  unfold updateLot
  rw [List.map_map]
  apply List.map_congr_left
  intro l _
  by_cases h : l.id = pid
  · simp [Function.comp, h, hf]
  · simp [Function.comp, h]

/-- An update that fixes every matching row is the identity. -/
theorem updateLot_id_of (ps : List Lot) (pid : Nat) (g : Lot → Lot)
    (hg : ∀ l ∈ ps, l.id = pid → g l = l) :
    updateLot ps pid g = ps := by
  unfold updateLot
  conv_rhs => rw [← List.map_id ps]
  apply List.map_congr_left
  intro l hl
  by_cases h : l.id = pid
  · simp [h, hg l hl h]
  · simp [h]

/-- Two updates of the same user row compose. -/
theorem updateUser_updateUser (us : List User) (uid : Nat) (f g : User → User)
    (hf : ∀ u, (f u).userId = u.userId) :
    updateUser (updateUser us uid f) uid g = updateUser us uid (fun u => g (f u)) := by
  unfold updateUser
  rw [List.map_map]
  apply List.map_congr_left
  intro u _
  by_cases h : u.userId = uid
  · simp [Function.comp, h, hf]
  · simp [Function.comp, h]

/-- A user update that fixes every matching row is the identity. -/
theorem updateUser_id_of (us : List User) (uid : Nat) (g : User → User)
    (hg : ∀ u ∈ us, u.userId = uid → g u = u) :
    updateUser us uid g = us := by
  unfold updateUser
  conv_rhs => rw [← List.map_id us]
  apply List.map_congr_left
  intro u hu
  by_cases h : u.userId = uid
  · simp [h, hg u hu h]
  · simp [h]

/-- With unique user ids, the found row is the only row with its id. -/
theorem findUser_unique (us : List User) (uid : Nat) (u : User)
    (hnd : NodupUserIds us) (hu : findUser us uid = some u) :
    ∀ w ∈ us, w.userId = uid → w = u := by
  induction us with
  | nil => intro w hw; cases hw
  | cons v rest ih =>
    have hnd2 : NodupUserIds rest := by
      have := hnd
      unfold NodupUserIds at this ⊢
      simp only [List.map_cons, List.nodup_cons] at this
      exact this.2
    have hvnot : v.userId ∉ rest.map (fun w => w.userId) := by
      have := hnd
      unfold NodupUserIds at this
      simp only [List.map_cons, List.nodup_cons] at this
      exact this.1
    intro w hw hwid
    by_cases hv : v.userId = uid
    · have huv : u = v := by
        unfold findUser at hu
        rw [List.find?_cons_of_pos _ (by simp [hv])] at hu
        exact (Option.some.injEq _ _ ▸ hu.symm)
      rcases List.mem_cons.mp hw with rfl | hw2
      · rw [huv]
      · exfalso
        apply hvnot
        rw [hv, ← hwid]
        exact List.mem_map.mpr ⟨w, hw2, rfl⟩
    · have hu2 : findUser rest uid = some u := by
        unfold findUser at hu ⊢
        rwa [List.find?_cons_of_neg _ (by simp [hv])] at hu
      rcases List.mem_cons.mp hw with rfl | hw2
      · exact absurd hwid hv
      · exact ih hnd2 hu2 w hw2 hwid

/-- Appending a hold and then removing the first hold on its lot is the
identity when no earlier hold references that lot. -/
theorem removeFirstHold_append_last (b : List Hold) (pid : Nat) (ts : Rat)
    (hnone : removeFirstHold b pid = none) :
    removeFirstHold (b ++ [⟨pid, ts⟩]) pid = some b := by
  induction b with
  | nil => simp [removeFirstHold]
  | cons h t ih =>
    simp only [List.cons_append]
    unfold removeFirstHold at hnone ⊢
    by_cases hh : h.productId = pid
    · rw [if_pos hh] at hnone
      cases hnone
    · rw [if_neg hh] at hnone ⊢
      have ht : removeFirstHold t pid = none := by
        cases hrt : removeFirstHold t pid with
        | none => rfl
        | some t2 => rw [hrt] at hnone; cases hnone
      rw [ih ht]
      rfl

/-- C9: adding a lot to the basket (successfully reserving it) followed
immediately by removing that same lot restores the whole store state —
in particular the lot's free stock `available - reserved` and the
shopper's hold set return to exactly their pre-add values.  The
no-prior-hold hypothesis pins the removed hold to the one just added
(removal drops the first matching hold). -/
theorem add_remove_round_trip
    (s : State) (uid c d t sz : Nat) (pr now : Rat) (l : Lot) (u : User)
    (hsel : selectMinId (s.products.filter (freeLotMatch c d t sz pr)) = some l)
    (hu : findUser s.users uid = some u)
    (hnd : NodupUserIds s.users)
    (hnoprior : removeFirstHold u.basket l.id = none)
    (hres : ∀ p ∈ s.products, 0 ≤ p.reserved) :
    removeFromBasket (addToBasket s uid c d t sz pr now).1 uid l.id = s := by
  have hadd : (addToBasket s uid c d t sz pr now).1 =
      { s with
        products := updateLot s.products l.id
          (fun p => { p with reserved := p.reserved + 1 })
        users := updateUser s.users uid
          (fun v => { v with basket := v.basket ++ [⟨l.id, now⟩] }) } := by
    unfold addToBasket
    rw [hsel]
  rw [hadd]
  unfold removeFromBasket
  rw [findUser_updateUser s.users uid
    (fun v => { v with basket := v.basket ++ [⟨l.id, now⟩] }) (fun v => rfl), hu]
  simp only [Option.map_some']
  rw [removeFirstHold_append_last u.basket l.id now hnoprior]
  dsimp only
  rw [updateLot_updateLot s.products l.id
      (fun p => { p with reserved := p.reserved + 1 })
      (fun p => { p with reserved := max 0 (p.reserved - 1) }) (fun p => rfl),
    updateUser_updateUser s.users uid
      (fun v => { v with basket := v.basket ++ [⟨l.id, now⟩] })
      (fun v => { v with basket := u.basket }) (fun v => rfl)]
  rw [updateLot_id_of s.products l.id _ (by
    intro p hp _
    have h1 : p.reserved + 1 - 1 = p.reserved := by ring
    dsimp only
    rw [h1, max_eq_right (hres p hp)])]
  rw [updateUser_id_of s.users uid _ (by
    intro w hw hwid
    have hweq : w = u := findUser_unique s.users uid u hnd hu w hw hwid
    dsimp only
    rw [hweq])]

/-- C9 witness: in `exRoundTripState`, adding free lot 6 and removing it
again leaves the state exactly as it started. -/
theorem add_remove_round_trip_witness :
    (selectMinId (exRoundTripState.products.filter (freeLotMatch 1 1 1 1 10)) =
      some ⟨6, 1, 1, 1, 1, 10, 1, 0⟩ ∧
      findUser exRoundTripState.users 1 = some ⟨1, 0, [], 0⟩ ∧
      removeFirstHold ([] : List Hold) 6 = none) ∧
    removeFromBasket (addToBasket exRoundTripState 1 1 1 1 1 10 0).1 1 6 =
      exRoundTripState := by
  have hsel : selectMinId (exRoundTripState.products.filter (freeLotMatch 1 1 1 1 10)) =
      some ⟨6, 1, 1, 1, 1, 10, 1, 0⟩ := by
    norm_num [exRoundTripState, selectMinId, freeLotMatch, List.filter]
  have hu : findUser exRoundTripState.users 1 = some ⟨1, 0, [], 0⟩ := by
    norm_num [exRoundTripState, findUser, List.find?]
  refine ⟨⟨hsel, hu, rfl⟩, ?_⟩
  exact add_remove_round_trip exRoundTripState 1 1 1 1 1 10 0
    ⟨6, 1, 1, 1, 1, 10, 1, 0⟩ ⟨1, 0, [], 0⟩ hsel hu
    (by unfold NodupUserIds; decide) rfl
    (by intro p hp; fin_cases hp; decide)

/-- Every snapshot line ends up either finalized or reported sold out:
together the two output lists are a permutation of the snapshot's product
ids. -/
theorem settleLoop_partition (dict : List Lot) (uid : Nat) (date : Rat) :
    ∀ (snap : List Hold) (ps : List Lot),
      List.Perm
        ((settleLoop dict uid date ps snap).2.2.1 ++
          (settleLoop dict uid date ps snap).2.2.2)
        (snap.map (fun h => h.productId)) := by
  intro snap
  induction snap with
  | nil =>
    intro ps
    simp [settleLoop]
  | cons h rest ih =>
    intro ps
    by_cases hstep : (processSnapshotItem dict ps h.productId).2.1 = true
    · rw [settleLoop_cons, if_pos hstep]
      simp only [List.map_cons, List.cons_append]
      exact (ih _).cons h.productId
    · rw [settleLoop_cons, if_neg hstep]
      simp only [List.map_cons]
      exact List.Perm.trans List.perm_middle ((ih _).cons h.productId)

/-- C2: when a balance settlement finalizes at least one snapshot line and
at least one line cannot be finalized, the committed transaction still
debits exactly the pre-computed checkout total of the FULL snapshot
(`checkoutFinalTotal` of the checkout-start state `s0`), not a total
re-derived from the successfully finalized lines; the basket is cleared,
and every snapshot line is either finalized or reported back as
unsettleable (the two reported lists partition the snapshot ids). -/
theorem balance_settle_partial_charges_snapshot_total
    (s0 s1 : State) (uid : Nat) (basket : List Hold) (dc dcUsed : Option String)
    (now date : Rat) (u : User)
    (hu : findUser s1.users uid = some u)
    (hok : (processPurchaseWithBalance s1 uid (checkoutFinalTotal s0 basket dc now)
      (checkoutSnapshot s0 basket) dcUsed date).ok = true)
    (_hmixed : (processPurchaseWithBalance s1 uid (checkoutFinalTotal s0 basket dc now)
      (checkoutSnapshot s0 basket) dcUsed date).soldOut ≠ []) :
    findUser (processPurchaseWithBalance s1 uid (checkoutFinalTotal s0 basket dc now)
        (checkoutSnapshot s0 basket) dcUsed date).finalState.users uid =
      some { u with
        balance := u.balance - checkoutFinalTotal s0 basket dc now
        basket := []
        totalPurchases := u.totalPurchases +
          (processPurchaseWithBalance s1 uid (checkoutFinalTotal s0 basket dc now)
            (checkoutSnapshot s0 basket) dcUsed date).inserted.length } ∧
    List.Perm
      ((processPurchaseWithBalance s1 uid (checkoutFinalTotal s0 basket dc now)
          (checkoutSnapshot s0 basket) dcUsed date).processed ++
        (processPurchaseWithBalance s1 uid (checkoutFinalTotal s0 basket dc now)
          (checkoutSnapshot s0 basket) dcUsed date).soldOut)
      ((checkoutSnapshot s0 basket).map (fun h => h.productId)) := by
  rw [ppwb_ok_commit s1 uid (checkoutFinalTotal s0 basket dc now)
    (checkoutSnapshot s0 basket) dcUsed date hok]
  constructor
  · show findUser (commitState s1 uid (checkoutFinalTotal s0 basket dc now) dcUsed
      (settleRun s1 uid date (checkoutSnapshot s0 basket))).users uid = _
    unfold commitState
    rw [findUser_updateUser _ uid
        (fun v => { v with
          totalPurchases := v.totalPurchases +
            (settleRun s1 uid date (checkoutSnapshot s0 basket)).2.1.length
          basket := [] }) (fun v => rfl),
      findUser_updateUser s1.users uid
        (fun v => { v with balance := v.balance - checkoutFinalTotal s0 basket dc now })
        (fun v => rfl),
      hu]
    rfl
  · show List.Perm
      ((settleRun s1 uid date (checkoutSnapshot s0 basket)).2.2.1 ++
        (settleRun s1 uid date (checkoutSnapshot s0 basket)).2.2.2) _
    unfold settleRun
    exact settleLoop_partition _ uid date (checkoutSnapshot s0 basket) s1.products

/-- C2 witness (Scenario C): the checkout snapshot of `exPartialState0`
holds lots 1 and 2 (10 EUR each, total 20); by settlement time lot 2's row
is gone (`exPartialState`).  The settlement succeeds, finalizes lot 1,
reports lot 2 as unsettleable, and still debits the full pre-computed 20:
the balance drops from 50 to 30, not to 40. -/
theorem balance_settle_partial_charges_snapshot_total_witness :
    (findUser exPartialState.users 1 = some ⟨1, 50, [⟨1, 0⟩, ⟨2, 0⟩], 0⟩ ∧
      checkoutFinalTotal exPartialState0 [⟨1, 0⟩, ⟨2, 0⟩] none 0 = 20 ∧
      (processPurchaseWithBalance exPartialState 1
        (checkoutFinalTotal exPartialState0 [⟨1, 0⟩, ⟨2, 0⟩] none 0)
        (checkoutSnapshot exPartialState0 [⟨1, 0⟩, ⟨2, 0⟩]) none 100).ok = true ∧
      (processPurchaseWithBalance exPartialState 1
        (checkoutFinalTotal exPartialState0 [⟨1, 0⟩, ⟨2, 0⟩] none 0)
        (checkoutSnapshot exPartialState0 [⟨1, 0⟩, ⟨2, 0⟩]) none 100).soldOut = [2]) ∧
    findUser (processPurchaseWithBalance exPartialState 1
        (checkoutFinalTotal exPartialState0 [⟨1, 0⟩, ⟨2, 0⟩] none 0)
        (checkoutSnapshot exPartialState0 [⟨1, 0⟩, ⟨2, 0⟩]) none 100).finalState.users 1 =
      some ⟨1, 30, [], 1⟩ := by
  have hsnap : checkoutSnapshot exPartialState0 [⟨1, 0⟩, ⟨2, 0⟩] = [⟨1, 0⟩, ⟨2, 0⟩] := by
    norm_num [checkoutSnapshot, exPartialState0, findLot, List.find?, List.filter]
  have htot : checkoutFinalTotal exPartialState0 [⟨1, 0⟩, ⟨2, 0⟩] none 0 = 20 := by
    rw [checkoutFinalTotal, checkoutOriginalTotal, hsnap]
    norm_num [exPartialState0, findLot, List.find?, List.filterMap]
  have hu : findUser exPartialState.users 1 = some ⟨1, 50, [⟨1, 0⟩, ⟨2, 0⟩], 0⟩ := by
    norm_num [exPartialState, findUser, List.find?]
  have hres : processPurchaseWithBalance exPartialState 1
      (checkoutFinalTotal exPartialState0 [⟨1, 0⟩, ⟨2, 0⟩] none 0)
      (checkoutSnapshot exPartialState0 [⟨1, 0⟩, ⟨2, 0⟩]) none 100 =
      processPurchaseWithBalance exPartialState 1 20 [⟨1, 0⟩, ⟨2, 0⟩] none 100 := by
    rw [htot, hsnap]
  have hok : (processPurchaseWithBalance exPartialState 1 20 [⟨1, 0⟩, ⟨2, 0⟩] none
      100).ok = true := by
    norm_num [processPurchaseWithBalance, settleRun, settleLoop, settleDict,
      processSnapshotItem, commitState, cleanupState, exPartialState, findUser, findLot,
      updateUser, updateLot, List.find?, List.filter, List.cons_ne_nil]
  have hso : (processPurchaseWithBalance exPartialState 1 20 [⟨1, 0⟩, ⟨2, 0⟩] none
      100).soldOut = [2] := by
    norm_num [processPurchaseWithBalance, settleRun, settleLoop, settleDict,
      processSnapshotItem, commitState, cleanupState, exPartialState, findUser, findLot,
      updateUser, updateLot, List.find?, List.filter, List.cons_ne_nil]
  have h := balance_settle_partial_charges_snapshot_total exPartialState0 exPartialState
    1 [⟨1, 0⟩, ⟨2, 0⟩] none none 0 100 ⟨1, 50, [⟨1, 0⟩, ⟨2, 0⟩], 0⟩ hu
    (by rw [hres]; exact hok) (by rw [hres, hso]; exact List.cons_ne_nil 2 [])
  have hlen : (processPurchaseWithBalance exPartialState 1 20 [⟨1, 0⟩, ⟨2, 0⟩] none
      100).inserted.length = 1 := by
    norm_num [processPurchaseWithBalance, settleRun, settleLoop, settleDict,
      processSnapshotItem, commitState, cleanupState, exPartialState, findUser, findLot,
      updateUser, updateLot, List.find?, List.filter, List.cons_ne_nil]
  refine ⟨⟨hu, htot, by rw [hres]; exact hok, by rw [hres]; exact hso⟩, ?_⟩
  rw [h.1, htot, hsnap, hlen]
  norm_num

/-! ### Counting lemmas for the reservation invariant -/

theorem countHolds_cons (h : Hold) (t : List Hold) (pid : Nat) :
    countHolds (h :: t) pid =
      countHolds t pid + (if h.productId = pid then 1 else 0) := by
  by_cases hh : h.productId = pid
  · simp [countHolds, List.filter_cons, hh]
  · simp [countHolds, List.filter_cons, hh]

theorem countHolds_append (a b : List Hold) (pid : Nat) :
    countHolds (a ++ b) pid = countHolds a pid + countHolds b pid := by
  simp [countHolds, List.filter_append]

theorem countHolds_filter_le (b : List Hold) (p : Hold → Bool) (pid : Nat) :
    countHolds (b.filter p) pid ≤ countHolds b pid := by
  induction b with
  | nil => exact le_refl _
  | cons h t ih =>
    by_cases hp : p h
    · rw [List.filter_cons, if_pos hp, countHolds_cons, countHolds_cons]
      omega
    · rw [List.filter_cons, if_neg hp, countHolds_cons]
      omega

theorem countHolds_filter_split (b : List Hold) (p : Hold → Bool) (pid : Nat) :
    countHolds (b.filter p) pid + countHolds (b.filter (fun h => ¬ p h)) pid =
      countHolds b pid := by
  induction b with
  | nil => rfl
  | cons h t ih =>
    by_cases hp : p h
    · rw [List.filter_cons, List.filter_cons, if_pos hp,
        if_neg (by simp [hp]), countHolds_cons, countHolds_cons]
      omega
    · rw [List.filter_cons, List.filter_cons, if_neg hp,
        if_pos (by simp [hp]), countHolds_cons, countHolds_cons]
      omega

/-- A filter that keeps every hold on `pid` keeps the count on `pid`. -/
theorem countHolds_filter_of_all (b : List Hold) (p : Hold → Bool) (pid : Nat)
    (hall : ∀ h ∈ b, h.productId = pid → p h = true) :
    countHolds (b.filter p) pid = countHolds b pid := by
  induction b with
  | nil => rfl
  | cons h t ih =>
    have iht := ih (fun h2 hh2 => hall h2 (List.mem_cons_of_mem h hh2))
    by_cases hp : p h
    · rw [List.filter_cons, if_pos hp, countHolds_cons, countHolds_cons, iht]
    · have hne : h.productId ≠ pid := by
        intro hc
        exact hp (hall h (List.mem_cons_self h t) hc)
      rw [List.filter_cons, if_neg hp, countHolds_cons, if_neg hne, iht]
      omega

theorem removeFirstHold_counts (b : List Hold) (pid : Nat) :
    ∀ b2, removeFirstHold b pid = some b2 →
      countHolds b pid = countHolds b2 pid + 1 ∧
      ∀ q, q ≠ pid → countHolds b q = countHolds b2 q := by
  induction b with
  | nil => intro b2 h; cases h
  | cons h t ih =>
    intro b2 hrem
    unfold removeFirstHold at hrem
    by_cases hh : h.productId = pid
    · rw [if_pos hh] at hrem
      cases hrem
      constructor
      · rw [countHolds_cons, if_pos hh]
      · intro q hq
        rw [countHolds_cons, if_neg (by rw [hh]; exact fun hc => hq hc.symm)]
        omega
    · rw [if_neg hh] at hrem
      cases hrt : removeFirstHold t pid with
      | none => rw [hrt] at hrem; cases hrem
      | some t2 =>
        rw [hrt] at hrem
        cases hrem
        obtain ⟨h1, h2⟩ := ih t2 hrt
        constructor
        · rw [countHolds_cons, countHolds_cons, h1]
          omega
        · intro q hq
          rw [countHolds_cons, countHolds_cons, h2 q hq]

theorem countHolds_flatMap (us : List User) (g : User → List Hold) (pid : Nat) :
    countHolds (us.flatMap g) pid = (us.map (fun u => countHolds (g u) pid)).sum := by
  induction us with
  | nil => rfl
  | cons u rest ih =>
    rw [List.flatMap_cons, countHolds_append, List.map_cons, List.sum_cons, ih]

/-- One user's count never exceeds the total across all users. -/
theorem countHolds_le_totalHoldsUsers (us : List User) (uid : Nat) (u : User)
    (hu : findUser us uid = some u) (pid : Nat) :
    countHolds u.basket pid ≤ totalHoldsUsers us pid := by
  have hmem : u ∈ us := by
    have := List.mem_of_find?_eq_some hu
    exact this
  unfold totalHoldsUsers
  exact List.single_le_sum (fun x _ => Nat.zero_le x) _
    (List.mem_map.mpr ⟨u, hmem, rfl⟩)

/-- Updating a user not present leaves the list unchanged. -/
theorem updateUser_of_not_mem (us : List User) (uid : Nat) (f : User → User)
    (hno : ∀ w ∈ us, w.userId ≠ uid) :
    updateUser us uid f = us := by
  unfold updateUser
  conv_rhs => rw [← List.map_id us]
  apply List.map_congr_left
  intro u hu
  rw [if_neg (hno u hu)]
  rfl

/-- How one user update moves the global hold count (addition form). -/
theorem totalHoldsUsers_update (us : List User) (uid : Nat) (u : User)
    (f : User → User) (hnd : NodupUserIds us) (hu : findUser us uid = some u)
    (pid : Nat) :
    totalHoldsUsers (updateUser us uid f) pid + countHolds u.basket pid =
      totalHoldsUsers us pid + countHolds (f u).basket pid := by
  induction us with
  | nil => cases hu
  | cons v rest ih =>
    have hnd2 : NodupUserIds rest := by
      unfold NodupUserIds at hnd ⊢
      simp only [List.map_cons, List.nodup_cons] at hnd
      exact hnd.2
    have hvnot : v.userId ∉ rest.map (fun w => w.userId) := by
      unfold NodupUserIds at hnd
      simp only [List.map_cons, List.nodup_cons] at hnd
      exact hnd.1
    by_cases hv : v.userId = uid
    · have huv : u = v := by
        unfold findUser at hu
        rw [List.find?_cons_of_pos _ (by simp [hv])] at hu
        exact (Option.some.injEq _ _ ▸ hu.symm)
      have hrest : updateUser rest uid f = rest := by
        apply updateUser_of_not_mem
        intro w hw hc
        apply hvnot
        rw [hv, ← hc]
        exact List.mem_map.mpr ⟨w, hw, rfl⟩
      unfold updateUser totalHoldsUsers
      simp only [List.map_cons, List.sum_cons, if_pos hv]
      have : List.map (fun w => if w.userId = uid then f w else w) rest = rest := hrest
      rw [this, huv]
      omega
    · have hu2 : findUser rest uid = some u := by
        unfold findUser at hu ⊢
        rwa [List.find?_cons_of_neg _ (by simp [hv])] at hu
      have iha := ih hnd2 hu2
      unfold updateUser totalHoldsUsers at iha ⊢
      simp only [List.map_cons, List.sum_cons, if_neg hv]
      omega

/-! ### Row-id preservation and uniqueness -/

theorem releaseAll_ids (ps : List Lot) (hs : List Hold) :
    (releaseAll ps hs).map (fun l => l.id) = ps.map (fun l => l.id) := by
  unfold releaseAll
  rw [List.map_map]
  apply List.map_congr_left
  intro l _
  rfl

theorem updateLot_ids (ps : List Lot) (pid : Nat) (f : Lot → Lot)
    (hf : ∀ l, (f l).id = l.id) :
    (updateLot ps pid f).map (fun l => l.id) = ps.map (fun l => l.id) := by
  unfold updateLot
  rw [List.map_map]
  apply List.map_congr_left
  intro l _
  by_cases h : l.id = pid
  · simp [Function.comp, h, hf]
  · simp [Function.comp, h]

theorem nodupUserIds_updateUser (us : List User) (uid : Nat) (f : User → User)
    (hf : ∀ u, (f u).userId = u.userId) (hnd : NodupUserIds us) :
    NodupUserIds (updateUser us uid f) := by
  unfold NodupUserIds at hnd ⊢
  unfold updateUser
  rw [List.map_map]
  have : List.map ((fun u => u.userId) ∘ fun u => if u.userId = uid then f u else u) us =
      List.map (fun u => u.userId) us := by
    apply List.map_congr_left
    intro u _
    by_cases h : u.userId = uid
    · simp [Function.comp, h, hf]
    · simp [Function.comp, h]
  rw [this]
  exact hnd

theorem nodupUserIds_map (us : List User) (g : User → User)
    (hg : ∀ u, (g u).userId = u.userId) (hnd : NodupUserIds us) :
    NodupUserIds (us.map g) := by
  unfold NodupUserIds at hnd ⊢
  rw [List.map_map]
  have : List.map ((fun u => u.userId) ∘ g) us = List.map (fun u => u.userId) us := by
    apply List.map_congr_left
    intro u _
    simp [Function.comp, hg]
  rw [this]
  exact hnd

/-- With unique row ids, the found row is the only row with its id. -/
theorem findLot_unique (ps : List Lot) (pid : Nat) (l : Lot)
    (hnd : NodupIds ps) (hl : findLot ps pid = some l) :
    ∀ w ∈ ps, w.id = pid → w = l := by
  induction ps with
  | nil => intro w hw; cases hw
  | cons v rest ih =>
    have hnd2 : NodupIds rest := by
      unfold NodupIds at hnd ⊢
      simp only [List.map_cons, List.nodup_cons] at hnd
      exact hnd.2
    have hvnot : v.id ∉ rest.map (fun w => w.id) := by
      unfold NodupIds at hnd
      simp only [List.map_cons, List.nodup_cons] at hnd
      exact hnd.1
    intro w hw hwid
    by_cases hv : v.id = pid
    · have hlv : l = v := by
        unfold findLot at hl
        rw [List.find?_cons_of_pos _ (by simp [hv])] at hl
        exact (Option.some.injEq _ _ ▸ hl.symm)
      rcases List.mem_cons.mp hw with rfl | hw2
      · rw [hlv]
      · exfalso
        apply hvnot
        rw [hv, ← hwid]
        exact List.mem_map.mpr ⟨w, hw2, rfl⟩
    · have hl2 : findLot rest pid = some l := by
        unfold findLot at hl ⊢
        rwa [List.find?_cons_of_neg _ (by simp [hv])] at hl
      rcases List.mem_cons.mp hw with rfl | hw2
      · exact absurd hwid hv
      · exact ih hnd2 hl2 w hw2 hwid

theorem selectMinId_mem (xs : List Lot) (l : Lot) (h : selectMinId xs = some l) :
    l ∈ xs := by
  induction xs with
  | nil => cases h
  | cons v rest ih =>
    unfold selectMinId at h
    cases hrest : selectMinId rest with
    | none =>
      rw [hrest] at h
      dsimp only at h
      cases h
      exact List.mem_cons_self _ _
    | some m =>
      rw [hrest] at h
      dsimp only at h
      by_cases hle : v.id ≤ m.id
      · rw [if_pos hle] at h
        cases h
        exact List.mem_cons_self _ _
      · rw [if_neg hle] at h
        cases h
        exact List.mem_cons_of_mem v (ih hrest)

/-- The row a successful add reserves matches the filter and has free
stock. -/
theorem selectFreeLot_spec (s : State) (c d t sz : Nat) (pr : Rat) (l : Lot)
    (h : selectMinId (s.products.filter (freeLotMatch c d t sz pr)) = some l) :
    l ∈ s.products ∧ l.reserved < l.available := by
  have hmem := selectMinId_mem _ l h
  have := List.mem_filter.mp hmem
  refine ⟨this.1, ?_⟩
  have hmatch := this.2
  unfold freeLotMatch at hmatch
  simp only [Bool.and_eq_true, decide_eq_true_eq] at hmatch
  exact hmatch.2

/-! ### Invariant preservation -/

/-- A found row is in the list. -/
theorem findLot_mem (ps : List Lot) (pid : Nat) (l : Lot)
    (h : findLot ps pid = some l) : l ∈ ps :=
  List.mem_of_find?_eq_some h

/-- A found row's id is the looked-up id. -/
theorem findLot_id (ps : List Lot) (pid : Nat) (l : Lot)
    (h : findLot ps pid = some l) : l.id = pid := by
  have := List.find?_some h
  simpa using this

/-- With unique ids, membership determines the lookup. -/
theorem findLot_of_mem_nodup (ps : List Lot) (l : Lot)
    (hnd : NodupIds ps) (hl : l ∈ ps) : findLot ps l.id = some l := by
  induction ps with
  | nil => cases hl
  | cons v rest ih =>
    have hnd2 : NodupIds rest := by
      unfold NodupIds at hnd ⊢
      simp only [List.map_cons, List.nodup_cons] at hnd
      exact hnd.2
    have hvnot : v.id ∉ rest.map (fun w => w.id) := by
      unfold NodupIds at hnd
      simp only [List.map_cons, List.nodup_cons] at hnd
      exact hnd.1
    rcases List.mem_cons.mp hl with rfl | hl2
    · unfold findLot
      rw [List.find?_cons_of_pos _ (by simp)]
    · have hne : v.id ≠ l.id := by
        intro hc
        apply hvnot
        rw [hc]
        exact List.mem_map.mpr ⟨l, hl2, rfl⟩
      unfold findLot at ih ⊢
      rw [List.find?_cons_of_neg _ (by simp [hne])]
      exact ih hnd2 hl2

/-- Releasing holds and storing the reduced basket of one user preserves
the invariant whenever the released and kept holds partition the user's
basket counts. -/
theorem inv_release_update (s : State) (uid : Nat) (u : User)
    (released kept : List Hold)
    (hinv : Inv s)
    (hu : findUser s.users uid = some u)
    (hsplit : ∀ pid, countHolds kept pid + countHolds released pid =
      countHolds u.basket pid) :
    Inv { s with
      products := releaseAll s.products released
      users := updateUser s.users uid (fun v => { v with basket := kept }) } := by
  obtain ⟨hnd, hund, hbounds, hcount⟩ := hinv
  refine ⟨?_, ?_, ?_, ?_⟩
  · unfold NodupIds at hnd ⊢
    rw [releaseAll_ids]
    exact hnd
  · exact nodupUserIds_updateUser _ _ _ (fun v => rfl) hund
  · intro l2 hl2
    obtain ⟨l, hl, rfl⟩ := List.mem_map.mp hl2
    obtain ⟨h0, hra⟩ := hbounds l hl
    refine ⟨le_max_left 0 _, ?_⟩
    apply max_le (le_trans h0 hra)
    have hc : (0 : Int) ≤ (countHolds released l.id : Int) := Int.natCast_nonneg _
    omega
  · intro l2 hl2
    obtain ⟨l, hl, rfl⟩ := List.mem_map.mp hl2
    have hr := hcount l hl
    have htot := totalHoldsUsers_update s.users uid u
      (fun v => { v with basket := kept }) hund hu l.id
    have hc1 := countHolds_le_totalHoldsUsers s.users uid u hu l.id
    have hs := hsplit l.id
    unfold totalHolds at hr ⊢
    dsimp only at htot ⊢
    have hle : (countHolds released l.id : Int) ≤ l.reserved := by omega
    rw [max_eq_right (by omega)]
    omega

theorem inv_clearExpiredBasket (s : State) (uid : Nat) (now : Rat)
    (hinv : Inv s) : Inv (clearExpiredBasket s uid now) := by
  unfold clearExpiredBasket
  cases hu : findUser s.users uid with
  | none => exact hinv
  | some u =>
    dsimp only
    by_cases hb : u.basket = []
    · rw [if_pos hb]
      exact hinv
    · rw [if_neg hb]
      exact inv_release_update s uid u _ _ hinv hu
        (fun pid => countHolds_filter_split u.basket (holdAlive now) pid)

theorem inv_clearBasket (s : State) (uid : Nat) (hinv : Inv s) :
    Inv (clearBasket s uid) := by
  unfold clearBasket
  cases hu : findUser s.users uid with
  | none => exact hinv
  | some u =>
    dsimp only
    by_cases hb : u.basket = []
    · rw [if_pos hb]
      exact hinv
    · rw [if_neg hb]
      exact inv_release_update s uid u u.basket [] hinv hu
        (fun pid => by simp [countHolds])

theorem sum_map_add_holds (us : List User) (f g : User → Nat) :
    (us.map (fun u => f u + g u)).sum = (us.map f).sum + (us.map g).sum := by
  induction us with
  | nil => rfl
  | cons u rest ih =>
    simp only [List.map_cons, List.sum_cons, ih]
    omega

theorem inv_clearAllExpiredBaskets (s : State) (now : Rat) (hinv : Inv s) :
    Inv (clearAllExpiredBaskets s now) := by
  obtain ⟨hnd, hund, hbounds, hcount⟩ := hinv
  unfold clearAllExpiredBaskets
  refine ⟨?_, ?_, ?_, ?_⟩
  · unfold NodupIds at hnd ⊢
    rw [releaseAll_ids]
    exact hnd
  · exact nodupUserIds_map _ _ (fun u => rfl) hund
  · intro l2 hl2
    obtain ⟨l, hl, rfl⟩ := List.mem_map.mp hl2
    obtain ⟨h0, hra⟩ := hbounds l hl
    refine ⟨le_max_left 0 _, ?_⟩
    apply max_le (le_trans h0 hra)
    have hc : (0 : Int) ≤
        (countHolds (s.users.flatMap fun u =>
          u.basket.filter fun h => ¬holdAlive now h) l.id : Int) :=
      Int.natCast_nonneg _
    omega
  · intro l2 hl2
    obtain ⟨l, hl, rfl⟩ := List.mem_map.mp hl2
    have hr := hcount l hl
    unfold totalHolds at hr ⊢
    dsimp only
    have hflat := countHolds_flatMap s.users
      (fun u => u.basket.filter fun h => ¬holdAlive now h) l.id
    have hnew : totalHoldsUsers
        (s.users.map fun u => { u with basket := u.basket.filter (holdAlive now) })
        l.id =
        (s.users.map (fun u => countHolds (u.basket.filter (holdAlive now)) l.id)).sum := by
      unfold totalHoldsUsers
      rw [List.map_map]
      rfl
    have hsplitsum :
        (s.users.map (fun u => countHolds (u.basket.filter (holdAlive now)) l.id)).sum +
          (s.users.map (fun u =>
            countHolds (u.basket.filter fun h => ¬holdAlive now h) l.id)).sum =
          totalHoldsUsers s.users l.id := by
      unfold totalHoldsUsers
      rw [← sum_map_add_holds]
      apply congrArg
      apply List.map_congr_left
      intro u _
      exact countHolds_filter_split u.basket (holdAlive now) l.id
    rw [hnew]
    rw [max_eq_right (by omega)]
    omega

theorem inv_removeFromBasket (s : State) (uid pid : Nat) (hinv : Inv s) :
    Inv (removeFromBasket s uid pid) := by
  obtain ⟨hnd, hund, hbounds, hcount⟩ := hinv
  unfold removeFromBasket
  cases hu : findUser s.users uid with
  | none => exact ⟨hnd, hund, hbounds, hcount⟩
  | some u =>
    dsimp only
    cases hrem : removeFirstHold u.basket pid with
    | none => exact ⟨hnd, hund, hbounds, hcount⟩
    | some b2 =>
      dsimp only
      obtain ⟨hcnt1, hcnt2⟩ := removeFirstHold_counts u.basket pid b2 hrem
      refine ⟨?_, ?_, ?_, ?_⟩
      · unfold NodupIds at hnd ⊢
        rw [updateLot_ids s.products pid
          (fun l => { l with reserved := max 0 (l.reserved - 1) }) (fun l => rfl)]
        exact hnd
      · exact nodupUserIds_updateUser _ _ _ (fun v => rfl) hund
      · intro l2 hl2
        obtain ⟨l, hl, rfl⟩ := List.mem_map.mp hl2
        obtain ⟨h0, hra⟩ := hbounds l hl
        by_cases hid : l.id = pid
        · rw [if_pos hid]
          refine ⟨le_max_left 0 _, ?_⟩
          apply max_le (le_trans h0 hra)
          omega
        · rw [if_neg hid]
          exact ⟨h0, hra⟩
      · intro l2 hl2
        obtain ⟨l, hl, rfl⟩ := List.mem_map.mp hl2
        have hr := hcount l hl
        have htot := totalHoldsUsers_update s.users uid u
          (fun v => { v with basket := b2 }) hund hu l.id
        have hc1 := countHolds_le_totalHoldsUsers s.users uid u hu l.id
        unfold totalHolds at hr ⊢
        dsimp only at htot ⊢
        by_cases hid : l.id = pid
        · rw [if_pos hid]
          subst hid
          dsimp only
          rw [max_eq_right (by omega)]
          omega
        · rw [if_neg hid]
          have := hcnt2 l.id (fun hc => hid hc)
          omega

theorem inv_addToBasket (s : State) (uid c d t sz : Nat) (pr now : Rat)
    (hu : (findUser s.users uid).isSome) (hinv : Inv s) :
    Inv (addToBasket s uid c d t sz pr now).1 := by
  obtain ⟨hnd, hund, hbounds, hcount⟩ := hinv
  unfold addToBasket
  cases hsel : selectMinId (s.products.filter (freeLotMatch c d t sz pr)) with
  | none => exact ⟨hnd, hund, hbounds, hcount⟩
  | some l =>
    dsimp only
    obtain ⟨hmem, hfree⟩ := selectFreeLot_spec s c d t sz pr l hsel
    obtain ⟨u, huu⟩ := Option.isSome_iff_exists.mp hu
    refine ⟨?_, ?_, ?_, ?_⟩
    · unfold NodupIds at hnd ⊢
      rw [updateLot_ids s.products l.id
        (fun p => { p with reserved := p.reserved + 1 }) (fun p => rfl)]
      exact hnd
    · exact nodupUserIds_updateUser _ _ _ (fun v => rfl) hund
    · intro l2 hl2
      obtain ⟨w, hw, rfl⟩ := List.mem_map.mp hl2
      obtain ⟨h0, hra⟩ := hbounds w hw
      by_cases hid : w.id = l.id
      · have hweq : w = l := findLot_unique s.products l.id l hnd
          (findLot_of_mem_nodup s.products l hnd hmem) w hw hid
        rw [if_pos hid]
        subst hweq
        dsimp only
        constructor
        · omega
        · omega
      · rw [if_neg hid]
        exact ⟨h0, hra⟩
    · intro l2 hl2
      obtain ⟨w, hw, rfl⟩ := List.mem_map.mp hl2
      have hr := hcount w hw
      have htot := totalHoldsUsers_update s.users uid u
        (fun v => { v with basket := v.basket ++ [⟨l.id, now⟩] }) hund huu w.id
      unfold totalHolds at hr ⊢
      dsimp only at htot ⊢
      rw [countHolds_append] at htot
      by_cases hid : w.id = l.id
      · rw [if_pos hid]
        have hone : countHolds [(⟨l.id, now⟩ : Hold)] w.id = 1 := by
          rw [countHolds_cons, if_pos hid.symm]
          rfl
        rw [hone] at htot
        dsimp only
        omega
      · rw [if_neg hid]
        have hzero : countHolds [(⟨l.id, now⟩ : Hold)] w.id = 0 := by
          rw [countHolds_cons, if_neg (fun hc => hid hc.symm)]
          rfl
        rw [hzero] at htot
        omega

/-- A filter that keeps every row with the looked-up id preserves the
lookup. -/
theorem findLot_filter_of_all (ps : List Lot) (P : Lot → Bool) (pid : Nat)
    (hP : ∀ w : Lot, w.id = pid → P w = true) :
    findLot (ps.filter P) pid = findLot ps pid := by
  induction ps with
  | nil => rfl
  | cons v rest ih =>
    by_cases hv : v.id = pid
    · rw [List.filter_cons, if_pos (hP v hv)]
      unfold findLot
      rw [List.find?_cons_of_pos _ (by simp [hv]),
        List.find?_cons_of_pos _ (by simp [hv])]
    · by_cases hPv : P v
      · rw [List.filter_cons, if_pos hPv]
        unfold findLot at ih ⊢
        rw [List.find?_cons_of_neg _ (by simp [hv]),
          List.find?_cons_of_neg _ (by simp [hv])]
        exact ih
      · rw [List.filter_cons, if_neg hPv]
        unfold findLot at ih ⊢
        rw [List.find?_cons_of_neg _ (by simp [hv])] at *
        exact ih

theorem exists_hold_of_countHolds_pos (b : List Hold) (pid : Nat)
    (h : 0 < countHolds b pid) : ∃ h2 ∈ b, h2.productId = pid := by
  unfold countHolds at h
  rw [List.length_pos] at h
  obtain ⟨h2, hh2⟩ := List.exists_mem_of_ne_nil _ h
  have := List.mem_filter.mp hh2
  exact ⟨h2, this.1, by simpa using this.2⟩

/-- The purchases-to-insert list and the processed-id list of the
settlement loop always have the same length. -/
theorem settleLoop_lengths (dict : List Lot) (uid : Nat) (date : Rat) :
    ∀ (snap : List Hold) (ps : List Lot),
      (settleLoop dict uid date ps snap).2.1.length =
        (settleLoop dict uid date ps snap).2.2.1.length := by
  intro snap
  induction snap with
  | nil => intro ps; rfl
  | cons h rest ih =>
    intro ps
    rw [settleLoop_cons]
    by_cases hstep : (processSnapshotItem dict ps h.productId).2.1 = true
    · rw [if_pos hstep]
      dsimp only [List.length_cons]
      rw [ih]
    · rw [if_neg hstep]
      exact ih _

/-- When every snapshot line's row exists with enough reservations —
exactly the situation a sequential checkout produces — every line of the
settlement loop succeeds: the table loses one `reserved` and one
`available` per hold, nothing is reported sold out, and the processed ids
are exactly the snapshot ids. -/
theorem settleLoop_full_success (dict : List Lot) (uid : Nat) (date : Rat) :
    ∀ (snap : List Hold) (ps : List Lot),
      NodupIds ps →
      (∀ l ∈ ps, 0 ≤ l.reserved ∧ l.reserved ≤ l.available) →
      (∀ h2 ∈ snap, ∃ l, findLot ps h2.productId = some l ∧
        (countHolds snap h2.productId : Int) ≤ l.reserved) →
      (∀ h2 ∈ snap, (findLot dict h2.productId).isSome = true) →
      (settleLoop dict uid date ps snap).1 =
        ps.map (fun w => { w with
          reserved := w.reserved - (countHolds snap w.id : Int)
          available := w.available - (countHolds snap w.id : Int) }) ∧
      (settleLoop dict uid date ps snap).2.2.2 = [] ∧
      (settleLoop dict uid date ps snap).2.2.1 =
        snap.map (fun h2 => h2.productId) := by
  intro snap
  induction snap with
  | nil =>
    intro ps hnd hbounds hsnap hdict
    refine ⟨?_, rfl, rfl⟩
    show ps = _
    conv_lhs => rw [← List.map_id ps]
    apply List.map_congr_left
    intro w _
    show w = _
    have h0 : (countHolds [] w.id : Int) = 0 := rfl
    rw [h0, sub_zero, sub_zero]
  | cons h rest ih =>
    intro ps hnd hbounds hsnap hdict
    obtain ⟨l, hl, hcle⟩ := hsnap h (List.mem_cons_self _ _)
    have hcc : countHolds (h :: rest) h.productId =
        countHolds rest h.productId + 1 := by
      rw [countHolds_cons, if_pos rfl]
    have hr1 : (1 : Int) ≤ l.reserved := by
      rw [hcc] at hcle
      push_cast at hcle
      omega
    obtain ⟨h0, hra⟩ := hbounds l (findLot_mem ps _ l hl)
    have hlid : l.id = h.productId := findLot_id ps _ l hl
    have ha1 : 0 < l.available := by omega
    obtain ⟨details, hdet⟩ :=
      Option.isSome_iff_exists.mp (hdict h (List.mem_cons_self _ _))
    have hstep : processSnapshotItem dict ps h.productId =
        (updateLot ps h.productId (fun w => { w with
            reserved := max 0 (w.reserved - 1),
            available := w.available - 1 }), true, details.price) := by
      unfold processSnapshotItem
      rw [hdet, hl]
      dsimp only
      rw [if_pos ha1,
        updateLot_updateLot ps h.productId
          (fun w => { w with reserved := max 0 (w.reserved - 1) })
          (fun w => { w with available := w.available - 1 }) (fun w => rfl)]
    have hnd2 : NodupIds (updateLot ps h.productId (fun w => { w with
        reserved := max 0 (w.reserved - 1),
        available := w.available - 1 })) := by
      unfold NodupIds at hnd ⊢
      rw [updateLot_ids ps h.productId
        (fun w =>
          { w with
            reserved := max 0 (w.reserved - 1),
            available := w.available - 1 }) (fun w => rfl)]
      exact hnd
    have hbounds2 : ∀ w ∈ updateLot ps h.productId (fun w => { w with
        reserved := max 0 (w.reserved - 1),
        available := w.available - 1 }), 0 ≤ w.reserved ∧ w.reserved ≤ w.available := by
      intro w2 hw2
      obtain ⟨w, hw, rfl⟩ := List.mem_map.mp hw2
      by_cases hid : w.id = h.productId
      · have hweq := findLot_unique ps h.productId l hnd hl w hw hid
        subst hweq
        rw [if_pos hid]
        dsimp only
        refine ⟨le_max_left 0 _, max_le (by omega) (by omega)⟩
      · rw [if_neg hid]
        exact hbounds w hw
    have hsnap2 : ∀ h2 ∈ rest, ∃ l2,
        findLot (updateLot ps h.productId (fun w => { w with
          reserved := max 0 (w.reserved - 1),
          available := w.available - 1 })) h2.productId = some l2 ∧
        (countHolds rest h2.productId : Int) ≤ l2.reserved := by
      intro h2 hh2
      by_cases hid : h2.productId = h.productId
      · refine ⟨{ l with
            reserved := max 0 (l.reserved - 1),
            available := l.available - 1 }, ?_, ?_⟩
        · rw [hid, findLot_updateLot ps h.productId
            (fun w =>
          { w with
            reserved := max 0 (w.reserved - 1),
            available := w.available - 1 }) (fun w => rfl), hl]
          rfl
        · dsimp only
          rw [max_eq_right (by omega), hid]
          rw [hcc] at hcle
          push_cast at hcle ⊢
          omega
      · obtain ⟨l2, hl2, hc2⟩ := hsnap h2 (List.mem_cons_of_mem h hh2)
        refine ⟨l2, ?_, ?_⟩
        · rw [findLot_updateLot_ne ps h.productId h2.productId
            (fun w =>
          { w with
            reserved := max 0 (w.reserved - 1),
            available := w.available - 1 }) (fun w => rfl) hid]
          exact hl2
        · have hsame : countHolds (h :: rest) h2.productId =
              countHolds rest h2.productId := by
            rw [countHolds_cons, if_neg (fun hc => hid hc.symm)]
            rfl
          rw [hsame] at hc2
          exact hc2
    have hdict2 : ∀ h2 ∈ rest, (findLot dict h2.productId).isSome = true :=
      fun h2 hh2 => hdict h2 (List.mem_cons_of_mem h hh2)
    obtain ⟨ih1, ih2, ih3⟩ := ih _ hnd2 hbounds2 hsnap2 hdict2
    refine ⟨?_, ?_, ?_⟩
    · rw [settleLoop_cons, hstep]
      dsimp only
      rw [if_pos rfl, ih1]
      unfold updateLot
      rw [List.map_map]
      apply List.map_congr_left
      intro w hw
      by_cases hid : w.id = h.productId
      · have hweq := findLot_unique ps h.productId l hnd hl w hw hid
        subst hweq
        simp only [Function.comp, if_pos hid]
        have e1 : max 0 (w.reserved - 1) - (countHolds rest w.id : Int) =
            w.reserved - (countHolds (h :: rest) w.id : Int) := by
          rw [max_eq_right (by omega), hid, hcc]
          push_cast
          omega
        have e2 : w.available - 1 - (countHolds rest w.id : Int) =
            w.available - (countHolds (h :: rest) w.id : Int) := by
          rw [hid, hcc]
          push_cast
          omega
        rw [e1, e2]
      · simp only [Function.comp, if_neg hid]
        have hsame : countHolds (h :: rest) w.id = countHolds rest w.id := by
          rw [countHolds_cons, if_neg (fun hc => hid hc.symm)]
          rfl
        rw [hsame]
    · rw [settleLoop_cons, hstep]
      rw [if_pos rfl]
      exact ih2
    · rw [settleLoop_cons, hstep]
      rw [if_pos rfl, ih3, List.map_cons]

/-- A balance settlement started from a swept state (its snapshot is the
shopper's live holds restricted to existing rows) preserves the invariant,
whatever amount the checkout computed. -/
theorem inv_processPurchaseCheckout (s1 : State) (uid : Nat) (amount : Rat)
    (dcUsed : Option String) (date : Rat) (u1 : User)
    (hinv1 : Inv s1)
    (hu1 : findUser s1.users uid = some u1) :
    Inv (processPurchaseWithBalance s1 uid amount
      (checkoutSnapshot s1 u1.basket) dcUsed date).finalState := by
  obtain ⟨hnd, hund, hbounds, hcount⟩ := hinv1
  have hsnapfact : ∀ h2 ∈ checkoutSnapshot s1 u1.basket, ∃ l,
      findLot s1.products h2.productId = some l ∧
      (countHolds (checkoutSnapshot s1 u1.basket) h2.productId : Int) ≤ l.reserved := by
    intro h2 hh2
    have hmf := List.mem_filter.mp hh2
    obtain ⟨l, hl⟩ := Option.isSome_iff_exists.mp (by simpa using hmf.2)
    refine ⟨l, hl, ?_⟩
    have hc1 : countHolds (checkoutSnapshot s1 u1.basket) h2.productId ≤
        countHolds u1.basket h2.productId :=
      countHolds_filter_le u1.basket _ h2.productId
    have hc2 := countHolds_le_totalHoldsUsers s1.users uid u1 hu1 h2.productId
    have hr := hcount l (findLot_mem s1.products _ l hl)
    have hid := findLot_id s1.products _ l hl
    unfold totalHolds at hr
    rw [hid] at hr
    omega
  have hdictfact : ∀ h2 ∈ checkoutSnapshot s1 u1.basket,
      (findLot (settleDict s1 (checkoutSnapshot s1 u1.basket))
        h2.productId).isSome = true := by
    intro h2 hh2
    obtain ⟨l, hl, _⟩ := hsnapfact h2 hh2
    unfold settleDict
    rw [findLot_filter_of_all s1.products _ h2.productId (fun w hw => by
      simp only [decide_eq_true_eq]
      rw [hw]
      exact List.mem_map.mpr ⟨h2, hh2, rfl⟩), hl]
    rfl
  obtain ⟨hrun1, hrun2, hrun3⟩ := settleLoop_full_success
    (settleDict s1 (checkoutSnapshot s1 u1.basket)) uid date
    (checkoutSnapshot s1 u1.basket) s1.products hnd hbounds hsnapfact hdictfact
  unfold processPurchaseWithBalance
  by_cases hempty : checkoutSnapshot s1 u1.basket = []
  · rw [if_pos hempty]
    exact ⟨hnd, hund, hbounds, hcount⟩
  rw [if_neg hempty]
  by_cases hneg : amount < 0
  · rw [if_pos hneg]
    exact ⟨hnd, hund, hbounds, hcount⟩
  rw [if_neg hneg, hu1]
  dsimp only
  by_cases hbal : u1.balance < amount
  · rw [if_pos hbal]
    exact ⟨hnd, hund, hbounds, hcount⟩
  rw [if_neg hbal]
  have hinsne : ¬ (settleRun s1 uid date (checkoutSnapshot s1 u1.basket)).2.1 = [] := by
    intro hc
    have hlen := settleLoop_lengths (settleDict s1 (checkoutSnapshot s1 u1.basket))
      uid date (checkoutSnapshot s1 u1.basket) s1.products
    unfold settleRun at hc
    rw [hc, hrun3] at hlen
    have : (checkoutSnapshot s1 u1.basket).length = 0 := by
      rw [← List.length_map (checkoutSnapshot s1 u1.basket) (fun h2 => h2.productId)]
      exact hlen.symm
    exact hempty (List.eq_nil_of_length_eq_zero this)
  rw [if_neg hinsne]
  dsimp only
  -- the committed products table and the final filtered one
  have hprod : (settleRun s1 uid date (checkoutSnapshot s1 u1.basket)).1 =
      s1.products.map (fun w => { w with
        reserved := w.reserved -
          (countHolds (checkoutSnapshot s1 u1.basket) w.id : Int)
        available := w.available -
          (countHolds (checkoutSnapshot s1 u1.basket) w.id : Int) }) := hrun1
  have hproc : (settleRun s1 uid date (checkoutSnapshot s1 u1.basket)).2.2.1 =
      (checkoutSnapshot s1 u1.basket).map (fun h2 => h2.productId) := hrun3
  -- `cnt = 0` for every surviving row
  have hzero : ∀ w ∈ s1.products,
      ¬ w.id ∈ (checkoutSnapshot s1 u1.basket).map (fun h2 => h2.productId) →
      countHolds (checkoutSnapshot s1 u1.basket) w.id = 0 := by
    intro w _ hnotin
    by_contra hpos
    obtain ⟨h2, hh2, hid⟩ := exists_hold_of_countHolds_pos _ _
      (Nat.pos_of_ne_zero hpos)
    exact hnotin (List.mem_map.mpr ⟨h2, hh2, hid⟩)
  unfold commitState cleanupState
  dsimp only
  refine ⟨?_, ?_, ?_, ?_⟩
  · -- unique row ids survive map and filter
    dsimp only
    unfold NodupIds at hnd ⊢
    have hids : ((settleRun s1 uid date (checkoutSnapshot s1 u1.basket)).1.map
        (fun l => l.id)) = s1.products.map (fun l => l.id) := by
      rw [hprod, List.map_map]
      apply List.map_congr_left
      intro w _
      rfl
    have hnd2 : (List.map (fun l => l.id)
        (settleRun s1 uid date (checkoutSnapshot s1 u1.basket)).1).Nodup := by
      rw [hids]; exact hnd
    exact List.Nodup.sublist
      (List.Sublist.map (fun l : Lot => l.id)
        (List.filter_sublist (settleRun s1 uid date (checkoutSnapshot s1 u1.basket)).1)) hnd2
  · exact nodupUserIds_updateUser _ _ _ (fun v => rfl)
      (nodupUserIds_updateUser _ _ _ (fun v => rfl) hund)
  · intro w2 hw2
    obtain ⟨hw2mem, hw2cond⟩ := List.mem_filter.mp hw2
    rw [hprod] at hw2mem
    obtain ⟨w, hw, rfl⟩ := List.mem_map.mp hw2mem
    have hcond : ¬ w.id ∈ (settleRun s1 uid date
        (checkoutSnapshot s1 u1.basket)).2.2.1 := by
      simpa using hw2cond
    rw [hproc] at hcond
    have hc0 := hzero w hw hcond
    obtain ⟨hb0, hba⟩ := hbounds w hw
    dsimp only
    rw [hc0]
    push_cast
    constructor
    · omega
    · omega
  · intro w2 hw2
    obtain ⟨hw2mem, hw2cond⟩ := List.mem_filter.mp hw2
    rw [hprod] at hw2mem
    obtain ⟨w, hw, rfl⟩ := List.mem_map.mp hw2mem
    have hcond : ¬ w.id ∈ (settleRun s1 uid date
        (checkoutSnapshot s1 u1.basket)).2.2.1 := by
      simpa using hw2cond
    rw [hproc] at hcond
    have hc0 := hzero w hw hcond
    -- the user's whole basket count on this row is zero
    have hwrow : findLot s1.products w.id = some w := findLot_of_mem_nodup _ w hnd hw
    have hcb : countHolds u1.basket w.id =
        countHolds (checkoutSnapshot s1 u1.basket) w.id := by
      symm
      apply countHolds_filter_of_all
      intro h2 _ hid2
      rw [hid2, hwrow]
      rfl
    -- the two user updates keep, then drop, the basket
    have hfu2 : findUser (updateUser s1.users uid
        (fun v => { v with balance := v.balance - amount })) uid =
        some { u1 with balance := u1.balance - amount } := by
      rw [findUser_updateUser s1.users uid
        (fun v => { v with balance := v.balance - amount }) (fun v => rfl), hu1]
      rfl
    have hund2 : NodupUserIds (updateUser s1.users uid
        (fun v => { v with balance := v.balance - amount })) :=
      nodupUserIds_updateUser _ _ _ (fun v => rfl) hund
    have hT1 := totalHoldsUsers_update s1.users uid u1
      (fun v => { v with balance := v.balance - amount }) hund hu1 w.id
    have hT2 := totalHoldsUsers_update _ uid { u1 with balance := u1.balance - amount }
      (fun v => { v with
        totalPurchases := v.totalPurchases +
          (settleRun s1 uid date (checkoutSnapshot s1 u1.basket)).2.1.length
        basket := [] }) hund2 hfu2 w.id
    have hr := hcount w hw
    unfold totalHolds at hr ⊢
    dsimp only at hT1 hT2 ⊢
    have hcnil : countHolds ([] : List Hold) w.id = 0 := rfl
    rw [hcnil] at hT2
    rw [hc0]
    push_cast
    omega

theorem inv_checkoutWithBalance (s : State) (uid : Nat) (dc : Option String)
    (now date : Rat) (hinv : Inv s) :
    Inv (checkoutWithBalance s uid dc now date) := by
  unfold checkoutWithBalance
  have hinv1 := inv_clearExpiredBasket s uid now hinv
  dsimp only
  by_cases hempty : checkoutSnapshot (clearExpiredBasket s uid now)
      (basketOf (clearExpiredBasket s uid now) uid) = []
  · rw [if_pos hempty]
    exact hinv1
  rw [if_neg hempty]
  by_cases hneg : checkoutFinalTotal (clearExpiredBasket s uid now)
      (basketOf (clearExpiredBasket s uid now) uid) dc now < 0
  · rw [if_pos hneg]
    exact hinv1
  rw [if_neg hneg]
  cases hu1 : findUser (clearExpiredBasket s uid now).users uid with
  | none => exact hinv1
  | some u =>
    dsimp only
    by_cases hbal : u.balance < checkoutFinalTotal (clearExpiredBasket s uid now)
        (basketOf (clearExpiredBasket s uid now) uid) dc now
    · rw [if_pos hbal]
      exact hinv1
    · rw [if_neg hbal]
      have hbk : basketOf (clearExpiredBasket s uid now) uid = u.basket := by
        unfold basketOf
        rw [hu1]
        rfl
      rw [hbk]
      exact inv_processPurchaseCheckout (clearExpiredBasket s uid now) uid _ _ date u
        hinv1 hu1

theorem inv_step (s s2 : State) (hinv : Inv s) (hstep : Step s s2) : Inv s2 := by
  cases hstep with
  | add uid c d t sz pr now hu => exact inv_addToBasket s uid c d t sz pr now hu hinv
  | remove uid pid => exact inv_removeFromBasket s uid pid hinv
  | clear uid => exact inv_clearBasket s uid hinv
  | lazySweep uid now => exact inv_clearExpiredBasket s uid now hinv
  | globalSweep now => exact inv_clearAllExpiredBaskets s now hinv
  | checkout uid dc now date => exact inv_checkoutWithBalance s uid dc now date hinv

/-- C4: in every state reachable by any sequence of the engine's operations
(add to basket, remove, clear, lazy sweep, global sweep, balance checkout)
from a state satisfying the engine invariant, every lot satisfies
`0 <= reserved <= available`. -/
theorem reserved_bounds_invariant_reachable (s0 s : State)
    (hinv : Inv s0) (hreach : Reachable s0 s) :
    ∀ l ∈ s.products, 0 ≤ l.reserved ∧ l.reserved ≤ l.available := by
  have hs : Inv s := by
    unfold Reachable at hreach
    induction hreach with
    | refl => exact hinv
    | tail hab hbc ih => exact inv_step _ _ ih hbc
  exact hs.2.2.1

/-- Witness for C4: the sweep-ready shop satisfies the invariant; after the
lazy sweep for shopper 1 at time 1000 (one engine step) every lot still
satisfies the reserved bounds. -/
theorem reserved_bounds_invariant_reachable_witness :
    Inv exSweepState ∧
    ∀ l ∈ (clearExpiredBasket exSweepState 1 1000).products,
      0 ≤ l.reserved ∧ l.reserved ≤ l.available := by
  have hinv : Inv exSweepState := by
    unfold Inv NodupIds NodupUserIds totalHolds totalHoldsUsers
    decide
  exact ⟨hinv, reserved_bounds_invariant_reachable exSweepState
    (clearExpiredBasket exSweepState 1 1000) hinv
    (Relation.ReflTransGen.single (Step.lazySweep exSweepState 1 1000))⟩

end Storefront
